import Mathlib

/-
Verification of the paint-assistant repository's core text pipeline.

Strings are shallowly embedded as `List Char` (`Str`).  Python string
operations (`lower`, `strip`, `split`, regex sub and search for the
concrete patterns appearing in the code) are translated into executable
Lean functions.  Python `float` prices are money values with two decimal
places throughout the repository's data; they are modelled as exact
amounts in hundredths (`Nat`).  The external fuzzy scorers (rapidfuzz
`WRatio`, `partial_ratio`, `token_set_ratio`) are parameters, matching
the design note that the similarity function is an external capability
behind an `(a, b) -> 0..100` interface; scores are modelled as `Int`.
-/

abbrev Str := List Char

/-- Python whitespace class (the characters matched by `str.strip()`,
`str.split()` and the regex class `\s` for ASCII text). -/
def isPySpace (c : Char) : Bool :=
  c = ' ' || c = '\t' || c = '\n' || c = '\r' || c = '\x0b' || c = '\x0c'

/-- ASCII lower-casing of one character, as `str.lower()` acts on the
ASCII range (codepoints 65-90 map to 97-122, everything else fixed). -/
def lowerChar (c : Char) : Char :=
  if 65 ≤ c.toNat ∧ c.toNat ≤ 90 then Char.ofNat (c.toNat + 32) else c

/-- ASCII upper-casing of one character (`str.upper()` on ASCII). -/
def upperChar (c : Char) : Char :=
  if 97 ≤ c.toNat ∧ c.toNat ≤ 122 then Char.ofNat (c.toNat - 32) else c

/-- Python `s.lower()`. -/
def lowerStr (l : Str) : Str := l.map lowerChar

/-- Python `s.upper()`. -/
def upperStr (l : Str) : Str := l.map upperChar

/-- Drop leading characters satisfying `p` (generic left strip). -/
def lstripBy (p : Char → Bool) (l : Str) : Str := l.dropWhile p

/-- Drop trailing characters satisfying `p` (generic right strip). -/
def rstripBy (p : Char → Bool) (l : Str) : Str := (l.reverse.dropWhile p).reverse

/-- Python `s.strip(chars)` for a character class `p`: drop the class
from both ends. -/
def stripBy (p : Char → Bool) (l : Str) : Str := rstripBy p (lstripBy p l)

/-- Python `s.strip()` (no argument): strip whitespace from both ends. -/
def pyStrip (l : Str) : Str := stripBy isPySpace l

/-- Python `re.sub(r"\s+", " ", s)`: replace every maximal run of
whitespace with a single space.  Structured as a two-character window so
the recursion is structural. -/
def collapseWS : Str → Str
  | [] => []
  | [c] => if isPySpace c then [' '] else [c]
  | c :: d :: r =>
    if isPySpace c then
      if isPySpace d then collapseWS (d :: r)
      else ' ' :: collapseWS (d :: r)
    else c :: collapseWS (d :: r)

/-- One step of splitting a string into maximal runs of characters that
are not delimiters (`delim` is the delimiter class): fold step used by
`splitRuns`. -/
def splitRunsStep (delim : Char → Bool) (c : Char) (acc : List Str) : List Str :=
  if delim c then [] :: acc
  else
    match acc with
    | [] => [[c]]
    | w :: ws => (c :: w) :: ws

/-- Split into the maximal runs of non-delimiter characters, dropping
empty runs: the common core of Python `s.split()` (whitespace delimiter)
and `re.split(cls, s)` followed by filtering out empty tokens. -/
def splitRuns (delim : Char → Bool) (l : Str) : List Str :=
  (l.foldr (splitRunsStep delim) []).filter (fun w => !w.isEmpty)

/-- Python `s.split()` with no separator: split on whitespace runs,
no empty tokens. -/
def pySplit (l : Str) : List Str := splitRuns isPySpace l

/-- Python `" ".join(ws)`. -/
def joinSpace (ws : List Str) : Str := List.intercalate [' '] ws

/-- Regex `\w` for ASCII: letters, digits and underscore. -/
def isWordChar (c : Char) : Bool :=
  (48 ≤ c.toNat && c.toNat ≤ 57) || (65 ≤ c.toNat && c.toNat ≤ 90) ||
    (97 ≤ c.toNat && c.toNat ≤ 122) || c = '_'

/-- Allow-list of `app.normalize_name`: the complement of the class
removed by `re.sub(r"[^\w\s\-\&/.:()]+", "", s)`. -/
def isAllowedNameChar (c : Char) : Bool :=
  isWordChar c || isPySpace c || c = '-' || c = '&' || c = '/' ||
    c = '.' || c = ':' || c = '(' || c = ')'

/-- Embedding of `app.normalize_name` (the spec's `normalize_text`):
lower-case, strip, collapse whitespace runs to one space, then remove
all characters outside the allow-list, in exactly the source's order. -/
def normalize_name (s : Str) : Str :=
  (collapseWS (pyStrip (lowerStr s))).filter isAllowedNameChar

theorem toNat_ofNat_valid {n : Nat} (h : n.isValidChar) : (Char.ofNat n).toNat = n := by
  simp only [Char.ofNat, dif_pos h, Char.ofNatAux, Char.toNat]
  simp [UInt32.toNat]

theorem lowerChar_idem (c : Char) : lowerChar (lowerChar c) = lowerChar c := by
  unfold lowerChar
  by_cases h : 65 ≤ c.toNat ∧ c.toNat ≤ 90
  · have hv : (c.toNat + 32).isValidChar := by
      left
      omega
    have ht : (Char.ofNat (c.toNat + 32)).toNat = c.toNat + 32 := toNat_ofNat_valid hv
    rw [if_pos h, if_neg]
    rw [ht]
    omega
  · rw [if_neg h, if_neg h]

theorem lowerChar_space : lowerChar ' ' = ' ' := by decide

theorem mem_collapseWS {c : Char} {l : Str} (h : c ∈ collapseWS l) : c ∈ l ∨ c = ' ' := by
  induction l using collapseWS.induct with
  | case1 => simp [collapseWS] at h
  | case2 a ha =>
    simp [collapseWS, ha] at h
    exact Or.inr h
  | case3 a ha =>
    simp [collapseWS, ha] at h
    simp [h]
  | case4 a d r ha hd ih =>
    rw [collapseWS, if_pos ha, if_pos hd] at h
    rcases ih h with h1 | h2
    · exact Or.inl (List.mem_cons_of_mem a h1)
    · exact Or.inr h2
  | case5 a d r ha hd ih =>
    rw [collapseWS, if_pos ha, if_neg hd] at h
    rcases List.mem_cons.mp h with h1 | h2
    · exact Or.inr h1
    · rcases ih h2 with h3 | h4
      · exact Or.inl (List.mem_cons_of_mem a h3)
      · exact Or.inr h4
  | case6 a d r ha ih =>
    rw [collapseWS, if_neg ha] at h
    rcases List.mem_cons.mp h with h1 | h2
    · exact Or.inl (h1 ▸ List.mem_cons_self a _)
    · rcases ih h2 with h3 | h4
      · exact Or.inl (List.mem_cons_of_mem a h3)
      · exact Or.inr h4

theorem mem_pyStrip {c : Char} {l : Str} (h : c ∈ pyStrip l) : c ∈ l := by
  unfold pyStrip stripBy rstripBy lstripBy at h
  rw [List.mem_reverse] at h
  have h2 := (List.dropWhile_suffix isPySpace).subset h
  rw [List.mem_reverse] at h2
  exact (List.dropWhile_suffix isPySpace).subset h2

theorem lowerStr_fixed {l : Str} (h : ∀ c ∈ l, lowerChar c = c) : lowerStr l = l := by
  unfold lowerStr
  induction l with
  | nil => rfl
  | cons a t ih =>
    simp only [List.map_cons]
    rw [h a (List.mem_cons_self a t), ih (fun c hc => h c (List.mem_cons_of_mem a hc))]

theorem normalize_name_chars {s : Str} {c : Char} (h : c ∈ normalize_name s) :
    lowerChar c = c ∧ isAllowedNameChar c = true := by
  unfold normalize_name at h
  have hall := (List.mem_filter.mp h).2
  have hmem := (List.mem_filter.mp h).1
  refine ⟨?_, hall⟩
  rcases mem_collapseWS hmem with h1 | h2
  · have h3 := mem_pyStrip h1
    unfold lowerStr at h3
    rcases List.mem_map.mp h3 with ⟨a, _, rfl⟩
    exact lowerChar_idem a
  · rw [h2]
    exact lowerChar_space

theorem normalize_name_of_clean {t : Str}
    (hfix : ∀ c ∈ t, lowerChar c = c)
    (hall : ∀ c ∈ t, isAllowedNameChar c = true) :
    normalize_name t = collapseWS (pyStrip t) := by
  unfold normalize_name
  rw [lowerStr_fixed hfix]
  rw [List.filter_eq_self.mpr]
  intro c hc
  rcases mem_collapseWS hc with h1 | h2
  · exact hall c (mem_pyStrip h1)
  · rw [h2]
    decide

theorem collapseWS_cons_nospace {c : Char} (h : ¬isPySpace c = true) (r : Str) :
    collapseWS (c :: r) = c :: collapseWS r := by
  cases r with
  | nil => simp [collapseWS, h]
  | cons d r2 => rw [collapseWS, if_neg h]

theorem collapseWS_idem (l : Str) : collapseWS (collapseWS l) = collapseWS l := by
  induction l using collapseWS.induct with
  | case1 => rfl
  | case2 a ha =>
    rw [collapseWS, if_pos ha]
    decide
  | case3 a ha =>
    rw [collapseWS, if_neg ha, collapseWS, if_neg ha]
  | case4 a d r ha hd ih =>
    rw [collapseWS, if_pos ha, if_pos hd]
    exact ih
  | case5 a d r ha hd ih =>
    rw [collapseWS, if_pos ha, if_neg hd]
    simp only [collapseWS_cons_nospace hd]
    rw [collapseWS, if_pos (show isPySpace ' ' = true from by decide), if_neg hd]
    simp only [collapseWS_cons_nospace hd]
    have ih2 := ih
    simp only [collapseWS_cons_nospace hd] at ih2
    injection ih2 with _ ih3
    rw [ih3]
  | case6 a d r ha ih =>
    rw [collapseWS, if_neg ha]
    rw [collapseWS_cons_nospace ha]
    rw [ih]

theorem dropWhile_self_of_head {p : Char → Bool} {l : Str}
    (h : ∀ c, l.head? = some c → p c = false) : l.dropWhile p = l := by
  cases l with
  | nil => rfl
  | cons c r => rw [List.dropWhile_cons, if_neg (by simp [h c rfl])]

theorem head_false_of_dropWhile_self {p : Char → Bool} {c : Char} {r : Str}
    (h : (c :: r).dropWhile p = c :: r) : p c = false := by
  cases hp : p c with
  | false => rfl
  | true =>
    rw [List.dropWhile_cons, if_pos hp] at h
    have h1 : (r.dropWhile p).length ≤ r.length :=
      (List.dropWhile_suffix p).sublist.length_le
    have h2 := congrArg List.length h
    simp at h2
    omega

theorem dropWhile_dropWhile (p : Char → Bool) (l : Str) :
    (l.dropWhile p).dropWhile p = l.dropWhile p := by
  induction l with
  | nil => rfl
  | cons c r ih =>
    rw [List.dropWhile_cons]
    by_cases hc : p c = true
    · rw [if_pos hc]
      exact ih
    · rw [if_neg hc, List.dropWhile_cons, if_neg hc]

theorem prefix_dropWhile_self {p : Char → Bool} {x y : Str}
    (hpre : x <+: y) (hy : y.dropWhile p = y) : x.dropWhile p = x := by
  cases x with
  | nil => rfl
  | cons c r =>
    rcases hpre with ⟨s, hs⟩
    have hys : y = c :: (r ++ s) := by rw [← hs]; rfl
    rw [hys] at hy
    have hc := head_false_of_dropWhile_self hy
    rw [List.dropWhile_cons, if_neg (by simp [hc])]

theorem noLead_pyStrip (l : Str) : (pyStrip l).dropWhile isPySpace = pyStrip l := by
  unfold pyStrip stripBy rstripBy lstripBy
  refine prefix_dropWhile_self ?_ (dropWhile_dropWhile isPySpace l)
  have h1 := List.reverse_prefix.mpr
    (List.dropWhile_suffix (l := (l.dropWhile isPySpace).reverse) isPySpace)
  simpa using h1

theorem noTrail_pyStrip (l : Str) :
    (pyStrip l).reverse.dropWhile isPySpace = (pyStrip l).reverse := by
  unfold pyStrip stripBy rstripBy lstripBy
  rw [List.reverse_reverse]
  exact dropWhile_dropWhile isPySpace _

theorem collapseWS_ne_nil {l : Str} (h : l ≠ []) : collapseWS l ≠ [] := by
  induction l using collapseWS.induct with
  | case1 => exact absurd rfl h
  | case2 a ha => rw [collapseWS, if_pos ha]; simp
  | case3 a ha => rw [collapseWS, if_neg ha]; simp
  | case4 a d r ha hd ih =>
    rw [collapseWS, if_pos ha, if_pos hd]
    exact ih (by simp)
  | case5 a d r ha hd ih =>
    rw [collapseWS, if_pos ha, if_neg hd]
    simp
  | case6 a d r ha ih =>
    rw [collapseWS, if_neg ha]
    simp

theorem getLast?_cons_of_ne_nil {a : Char} {l : Str} (h : l ≠ []) :
    (a :: l).getLast? = l.getLast? := by
  cases l with
  | nil => exact absurd rfl h
  | cons b t => exact List.getLast?_cons_cons

theorem noTrail_collapseWS {x : Str}
    (h : ∀ c, x.getLast? = some c → isPySpace c = false) :
    ∀ c, (collapseWS x).getLast? = some c → isPySpace c = false := by
  induction x using collapseWS.induct with
  | case1 => intro c hc; simp [collapseWS] at hc
  | case2 a ha =>
    have h2 := h a (by simp)
    rw [h2] at ha
    exact Bool.noConfusion ha
  | case3 a ha =>
    rw [collapseWS, if_neg ha]
    exact h
  | case4 a d r ha hd ih =>
    rw [collapseWS, if_pos ha, if_pos hd]
    apply ih
    intro c hc
    apply h
    rw [List.getLast?_cons_cons]
    exact hc
  | case5 a d r ha hd ih =>
    rw [collapseWS, if_pos ha, if_neg hd]
    intro c hc
    rw [getLast?_cons_of_ne_nil (collapseWS_ne_nil (by simp))] at hc
    refine ih ?_ c hc
    intro c2 hc2
    apply h
    rw [List.getLast?_cons_cons]
    exact hc2
  | case6 a d r ha ih =>
    rw [collapseWS, if_neg ha]
    intro c hc
    rw [getLast?_cons_of_ne_nil (collapseWS_ne_nil (by simp))] at hc
    refine ih ?_ c hc
    intro c2 hc2
    apply h
    rw [List.getLast?_cons_cons]
    exact hc2

theorem dropWhile_self_iff_getLast {p : Char → Bool} {l : Str} :
    l.reverse.dropWhile p = l.reverse ↔ ∀ c, l.getLast? = some c → p c = false := by
  constructor
  · intro h c hc
    cases hr : l.reverse with
    | nil =>
      rw [← List.head?_reverse, hr] at hc
      simp at hc
    | cons a t =>
      rw [hr] at h
      have ha := head_false_of_dropWhile_self h
      rw [← List.head?_reverse, hr] at hc
      simp at hc
      rw [← hc]
      exact ha
  · intro h
    apply dropWhile_self_of_head
    intro c hc
    apply h
    rw [← List.head?_reverse]
    exact hc

theorem noLead_collapseWS {x : Str} (h : x.dropWhile isPySpace = x) :
    (collapseWS x).dropWhile isPySpace = collapseWS x := by
  cases x with
  | nil => rfl
  | cons c r =>
    have hc := head_false_of_dropWhile_self h
    rw [collapseWS_cons_nospace (by simp [hc]) r]
    apply dropWhile_self_of_head
    intro c2 hc2
    simp only [List.head?_cons, Option.some.injEq] at hc2
    rw [← hc2]
    exact hc

theorem pyStrip_collapseWS_pyStrip (l : Str) :
    pyStrip (collapseWS (pyStrip l)) = collapseWS (pyStrip l) := by
  have hlead : (collapseWS (pyStrip l)).dropWhile isPySpace = collapseWS (pyStrip l) :=
    noLead_collapseWS (noLead_pyStrip l)
  have htrail : (collapseWS (pyStrip l)).reverse.dropWhile isPySpace =
      (collapseWS (pyStrip l)).reverse := by
    rw [dropWhile_self_iff_getLast]
    apply noTrail_collapseWS
    rw [← dropWhile_self_iff_getLast]
    exact noTrail_pyStrip l
  show stripBy isPySpace (collapseWS (pyStrip l)) = collapseWS (pyStrip l)
  unfold stripBy rstripBy lstripBy
  rw [hlead, htrail, List.reverse_reverse]

theorem normalize_name_twice (t : Str) :
    normalize_name (normalize_name t) = collapseWS (pyStrip (normalize_name t)) :=
  normalize_name_of_clean
    (fun c hc => (normalize_name_chars hc).1)
    (fun c hc => (normalize_name_chars hc).2)

/-- Claim C4 (corrected), counterexample: `normalize_name` is not
idempotent on every string.  On `"? a"` one application strips the `?`
after whitespace collapsing and leaves `" a"`, whose leading space only
the next application removes. -/
theorem claim_C4_counterexample :
    normalize_name (normalize_name ("? a".toList)) ≠ normalize_name ("? a".toList) := by
  decide

/-- Claim C4 (corrected), amended claim: the name-normalization
transform stabilizes after two applications: for every string `s`,
`normalize_name (normalize_name (normalize_name s)) =
normalize_name (normalize_name s)`.  Single-application idempotence
fails because stripping disallowed characters happens after whitespace
collapsing and trimming, so it can expose leading, trailing or doubled
whitespace that only the following application cleans up. -/
theorem claim_C4_amended (s : Str) :
    normalize_name (normalize_name (normalize_name s)) =
      normalize_name (normalize_name s) := by
  rw [normalize_name_twice (normalize_name s)]
  rw [normalize_name_twice s]
  rw [pyStrip_collapseWS_pyStrip]
  rw [collapseWS_idem]

/-- ASCII digit. -/
def isAsciiDigit (c : Char) : Bool := 48 ≤ c.toNat && c.toNat ≤ 57

/-- ASCII letter (either case). -/
def isAsciiAlpha (c : Char) : Bool :=
  (65 ≤ c.toNat && c.toNat ≤ 90) || (97 ≤ c.toNat && c.toNat ≤ 122)

/-- ASCII letter or digit. -/
def isAsciiAlnum (c : Char) : Bool := isAsciiDigit c || isAsciiAlpha c

/-- Embedding of `src.chatbot_config.ChatbotConfig`.  The three
similarity thresholds are floats in the source but carry the integer
values 75.0, 80.0 and 70.0 and are only ever compared against scores,
so they are modelled as `Int`. -/
structure ChatbotConfig where
  about_triggers : List Str
  price_triggers : List Str
  filler_words : List Str
  product_similarity_threshold : Int
  code_similarity_threshold : Int
  size_similarity_threshold : Int
  suggestion_limit : Nat
  size_aliases : List (Str × Str)

/-- Embedding of `src.chatbot_config.DEFAULT_CONFIG` with the default
field values of the `ChatbotConfig` dataclass. -/
def DEFAULT_CONFIG : ChatbotConfig where
  about_triggers :=
    [ ("tell me about".toList), ("information about".toList),
      ("information on".toList), ("what is".toList), ("what\x27s".toList),
      ("describe".toList), ("details about".toList) ]
  price_triggers :=
    [ ("how much is".toList), ("how much does".toList),
      ("price for".toList), ("price of".toList), ("price on".toList),
      ("what is the price of".toList), ("what\x27s the price of".toList),
      ("cost of".toList) ]
  filler_words :=
    [ ("the".toList), ("a".toList), ("an".toList), ("about".toList),
      ("of".toList) ]
  product_similarity_threshold := 75
  code_similarity_threshold := 80
  size_similarity_threshold := 70
  suggestion_limit := 3
  size_aliases :=
    [ (("l".toList), ("ltr".toList)), (("lt".toList), ("ltr".toList)),
      (("ltr".toList), ("ltr".toList)), (("liter".toList), ("ltr".toList)),
      (("litre".toList), ("ltr".toList)), (("liters".toList), ("ltr".toList)),
      (("litres".toList), ("ltr".toList)), (("ml".toList), ("ml".toList)),
      (("milliliter".toList), ("ml".toList)), (("millilitre".toList), ("ml".toList)),
      (("milliliters".toList), ("ml".toList)), (("millilitres".toList), ("ml".toList)),
      (("g".toList), ("g".toList)), (("gram".toList), ("g".toList)),
      (("grams".toList), ("g".toList)), (("kg".toList), ("kg".toList)),
      (("kilogram".toList), ("kg".toList)), (("kilograms".toList), ("kg".toList)),
      (("gal".toList), ("gallon".toList)), (("gallon".toList), ("gallon".toList)),
      (("gallons".toList), ("gallon".toList)), (("qt".toList), ("quart".toList)),
      (("quart".toList), ("quart".toList)), (("quarts".toList), ("quart".toList)),
      (("tin".toList), ("tin".toList)), (("tins".toList), ("tin".toList)),
      (("drum".toList), ("drum".toList)), (("drums".toList), ("drum".toList)),
      (("pack".toList), ("pack".toList)), (("packs".toList), ("pack".toList)),
      (("pail".toList), ("pail".toList)), (("pails".toList), ("pail".toList)),
      (("bucket".toList), ("bucket".toList)), (("buckets".toList), ("bucket".toList)) ]

/-- Character class stripped by `_strip_trailing_punctuation`, namely
the argument of the second `strip`: double quote, apostrophe, period,
comma, exclamation mark, question mark, semicolon, colon. -/
def isQuotePunct (c : Char) : Bool :=
  c = '"' || c = '\x27' || c = '.' || c = ',' || c = '!' || c = '?' ||
    c = ';' || c = ':'

/-- Embedding of `src.chatbot._strip_trailing_punctuation`:
`value.strip().strip("\x22\x27.,!?;:")` (despite its name it strips both
ends, first whitespace, then the quote and punctuation class). -/
def strip_trailing_punctuation (v : Str) : Str :=
  stripBy isQuotePunct (pyStrip v)

/-- Embedding of `src.chatbot._normalize_simple`:
`" ".join(value.lower().split())`. -/
def normalize_simple (v : Str) : Str := joinSpace (pySplit (lowerStr v))

/-- Embedding of `src.chatbot._normalize_code_query`:
`re.sub(r"[^A-Za-z0-9]", "", value).upper()`. -/
def normalize_code_query (v : Str) : Str := upperStr (v.filter isAsciiAlnum)

/-- Embedding of `re.sub(r"(?<=\d)(?=[A-Za-z])", " ", value)` in
`_normalize_size_phrase`: insert a space at every boundary where a digit
is immediately followed by a letter. -/
def insertDigitLetterSpace : Str → Str
  | [] => []
  | [c] => [c]
  | c :: d :: r =>
    if isAsciiDigit c && isAsciiAlpha d then c :: ' ' :: insertDigitLetterSpace (d :: r)
    else c :: insertDigitLetterSpace (d :: r)

/-- Character class kept by `_SIZE_TOKEN_SPLIT = re.compile(r"[^a-z0-9.]+")`
(splitting happens after lower-casing): lowercase letters, digits,
period. -/
def isSizeTokenChar (c : Char) : Bool :=
  (97 ≤ c.toNat && c.toNat ≤ 122) || isAsciiDigit c || c = '.'

/-- Embedding of `src.chatbot._normalize_size_phrase`: empty in, empty
out; otherwise insert digit-letter spaces, lower-case, split on runs of
characters outside `[a-z0-9.]` dropping empty tokens, canonicalize each
token through the config's alias table, join with single spaces. -/
def normalize_size_phrase (config : ChatbotConfig) (v : Str) : Str :=
  if v.isEmpty then []
  else
    joinSpace
      (((splitRuns (fun c => !isSizeTokenChar c)
          (lowerStr (insertDigitLetterSpace v))).map
        (fun t => (List.lookup t config.size_aliases).getD t)))

/-- Claim C5 (confirmed): the three phrasings `18 Ltr (Drum)`,
`18ltr drum` and `18 LITRE DRUM` normalize to one identical canonical
size key under the default configuration's alias table. -/
theorem claim_C5_size_key :
    normalize_size_phrase DEFAULT_CONFIG ("18 Ltr (Drum)".toList) =
        normalize_size_phrase DEFAULT_CONFIG ("18ltr drum".toList) ∧
      normalize_size_phrase DEFAULT_CONFIG ("18ltr drum".toList) =
        normalize_size_phrase DEFAULT_CONFIG ("18 LITRE DRUM".toList) := by
  constructor
  · decide
  · decide

/-- Stable insertion step for sorting in descending key order: a new
element (originating earlier in the input) is placed before the first
element whose key is less than or equal to its own, so equal-key
elements keep their input order. -/
def insertByDesc (key : α → Int) (x : α) : List α → List α
  | [] => [x]
  | y :: r => if key y ≤ key x then x :: y :: r else y :: insertByDesc key x r

/-- Stable sort by descending key.  Models Python's
`list.sort(key=..., reverse=True)`: Python's sort is stable and
`reverse=True` does not reorder equal keys, and a stable descending
sort's output is unique, so any stable algorithm is a faithful model. -/
def sortByDesc (key : α → Int) : List α → List α
  | [] => []
  | x :: r => insertByDesc key x (sortByDesc key r)

/-- Embedding of `src.chatbot._FallbackProcess.extract`: process the
query and every choice through the optional `processor`, score each
processed choice against the processed query, keep the ones whose score
reaches `score_cutoff` as `(original, score, 0)` triples in input
order, sort them by descending score (stable) and truncate to `limit`.
The `scorer` argument stands for the effective `scorer_fn`
(`scorer or _FallbackFuzz._ratio`); every caller in the repository
passes a scorer explicitly. -/
def applyProc (processor : Option (Str → Str)) (s : Str) : Str :=
  match processor with
  | some f => f s
  | none => s

def process_extract (query : Str) (choices : List Str)
    (processor : Option (Str → Str)) (scorer : Str → Str → Int)
    (score_cutoff : Int) (limit : Nat) : List (Str × Int × Nat) :=
  let results :=
    (choices.map (fun choice =>
      (choice, scorer (applyProc processor query) (applyProc processor choice),
        (0 : Nat)))).filter
      (fun t => score_cutoff ≤ t.2.1)
  (sortByDesc (fun t => t.2.1) results).take limit

/-- Pair every element with its index, starting from `n`. -/
def withIdx (n : Nat) : List α → List (α × Nat)
  | [] => []
  | x :: r => (x, n) :: withIdx (n + 1) r

/-- Insertion step of the ranking described by the spec: strictly
higher score first, ties broken by smaller original index. -/
def specInsertRanked (x : Str × Int × Nat) :
    List (Str × Int × Nat) → List (Str × Int × Nat)
  | [] => [x]
  | y :: r =>
    if y.2.1 < x.2.1 ∨ (x.2.1 = y.2.1 ∧ x.2.2 < y.2.2) then x :: y :: r
    else y :: specInsertRanked x r

/-- Sort as described by the spec: descending score, ties by ascending
original index (a strict total order on distinct indices, so the result
is independent of the sorting algorithm). -/
def specSortRanked : List (Str × Int × Nat) → List (Str × Int × Nat)
  | [] => []
  | x :: r => specInsertRanked x (specSortRanked r)

/-- The fuzzy-match ranking stated by the spec, written from its words:
index the candidates, score each one, keep exactly those with
`threshold ≤ score`, order by descending score with ties broken by the
original index, forget the indices and truncate to `limit`. -/
def specRankedMatches (query : Str) (choices : List Str)
    (processor : Option (Str → Str)) (scorer : Str → Str → Int)
    (threshold : Int) (limit : Nat) : List (Str × Int) :=
  let indexed :=
    (withIdx 0 choices).map (fun ci =>
      (ci.1, scorer (applyProc processor query) (applyProc processor ci.1), ci.2))
  let filtered := indexed.filter (fun t => threshold ≤ t.2.1)
  ((specSortRanked filtered).map (fun t => (t.1, t.2.1))).take limit

theorem mem_specInsertRanked {x y : Str × Int × Nat} {l : List (Str × Int × Nat)}
    (h : y ∈ specInsertRanked x l) : y = x ∨ y ∈ l := by
  induction l with
  | nil => simpa [specInsertRanked] using h
  | cons z r ih =>
    rw [specInsertRanked] at h
    by_cases hc : z.2.1 < x.2.1 ∨ (x.2.1 = z.2.1 ∧ x.2.2 < z.2.2)
    · rw [if_pos hc] at h
      rcases List.mem_cons.mp h with h1 | h2
      · exact Or.inl h1
      · exact Or.inr h2
    · rw [if_neg hc] at h
      rcases List.mem_cons.mp h with h1 | h2
      · exact Or.inr (h1 ▸ List.mem_cons_self z r)
      · rcases ih h2 with h3 | h4
        · exact Or.inl h3
        · exact Or.inr (List.mem_cons_of_mem z h4)

theorem mem_specSortRanked {y : Str × Int × Nat} {l : List (Str × Int × Nat)}
    (h : y ∈ specSortRanked l) : y ∈ l := by
  induction l with
  | nil => simpa [specSortRanked] using h
  | cons z r ih =>
    rw [specSortRanked] at h
    rcases mem_specInsertRanked h with h1 | h2
    · exact h1 ▸ List.mem_cons_self z r
    · exact List.mem_cons_of_mem z (ih h2)

theorem specInsertRanked_map_pair {x : Str × Int × Nat} {l : List (Str × Int × Nat)}
    (hidx : ∀ y ∈ l, x.2.2 < y.2.2) :
    (specInsertRanked x l).map (fun t => (t.1, t.2.1)) =
      insertByDesc (fun p => p.2) (x.1, x.2.1) (l.map (fun t => (t.1, t.2.1))) := by
  induction l with
  | nil => rfl
  | cons y r ih =>
    have hxy := hidx y (List.mem_cons_self y r)
    have hcond : (y.2.1 < x.2.1 ∨ (x.2.1 = y.2.1 ∧ x.2.2 < y.2.2)) ↔ y.2.1 ≤ x.2.1 := by
      constructor
      · intro h
        rcases h with h1 | ⟨h2, _⟩
        · exact le_of_lt h1
        · exact le_of_eq h2.symm
      · intro h
        rcases lt_or_eq_of_le h with h1 | h2
        · exact Or.inl h1
        · exact Or.inr ⟨h2.symm, hxy⟩
    rw [specInsertRanked, List.map_cons, insertByDesc]
    by_cases hc : y.2.1 ≤ x.2.1
    · rw [if_pos (hcond.mpr hc), if_pos hc]
      rfl
    · rw [if_neg (fun hh => hc (hcond.mp hh)), if_neg hc, List.map_cons]
      rw [ih (fun z hz => hidx z (List.mem_cons_of_mem y hz))]

theorem specSortRanked_map_pair {l : List (Str × Int × Nat)}
    (hinc : l.Pairwise (fun a b => a.2.2 < b.2.2)) :
    (specSortRanked l).map (fun t => (t.1, t.2.1)) =
      sortByDesc (fun p => p.2) (l.map (fun t => (t.1, t.2.1))) := by
  induction l with
  | nil => rfl
  | cons x r ih =>
    rw [specSortRanked, List.map_cons, sortByDesc]
    rw [← ih (List.Pairwise.of_cons hinc)]
    apply specInsertRanked_map_pair
    intro y hy
    exact (List.pairwise_cons.mp hinc).1 y (mem_specSortRanked hy)

theorem map_withIdx_fst (g : Str → β) (n : Nat) (l : List Str) :
    (withIdx n l).map (fun ci => g ci.1) = l.map g := by
  induction l generalizing n with
  | nil => rfl
  | cons x r ih =>
    rw [withIdx, List.map_cons, List.map_cons, ih]

theorem mem_withIdx_ge {y : α × Nat} {n : Nat} {l : List α}
    (h : y ∈ withIdx n l) : n ≤ y.2 := by
  induction l generalizing n with
  | nil => simp [withIdx] at h
  | cons x r ih =>
    rw [withIdx] at h
    rcases List.mem_cons.mp h with h1 | h2
    · rw [h1]
    · exact Nat.le_of_succ_le (ih h2)

theorem pairwise_withIdx (n : Nat) (l : List α) :
    (withIdx n l).Pairwise (fun a b => a.2 < b.2) := by
  induction l generalizing n with
  | nil => exact List.Pairwise.nil
  | cons x r ih =>
    rw [withIdx]
    refine List.pairwise_cons.mpr ⟨?_, ih (n + 1)⟩
    intro y hy
    exact Nat.lt_of_lt_of_le (Nat.lt_succ_self n) (mem_withIdx_ge hy)

theorem map_filter_eq {p : α → Bool} {q : β → Bool} {f : α → β}
    (h : ∀ x, q (f x) = p x) (l : List α) :
    (l.filter p).map f = (l.map f).filter q := by
  induction l with
  | nil => rfl
  | cons x r ih =>
    rw [List.filter_cons, List.map_cons, List.filter_cons, h x]
    by_cases hp : p x = true
    · rw [if_pos hp, if_pos hp, List.map_cons, ih]
    · rw [if_neg hp, if_neg hp, ih]

theorem insertByDesc_map {key : α → Int} {keyb : β → Int} {f : α → β}
    (h : ∀ x, keyb (f x) = key x) (x : α) (l : List α) :
    insertByDesc keyb (f x) (l.map f) = (insertByDesc key x l).map f := by
  induction l with
  | nil => rfl
  | cons y r ih =>
    rw [List.map_cons, insertByDesc, insertByDesc, h, h]
    by_cases hc : key y ≤ key x
    · rw [if_pos hc, if_pos hc, List.map_cons, List.map_cons]
    · rw [if_neg hc, if_neg hc, List.map_cons, ih]

theorem sortByDesc_map {key : α → Int} {keyb : β → Int} {f : α → β}
    (h : ∀ x, keyb (f x) = key x) (l : List α) :
    sortByDesc keyb (l.map f) = (sortByDesc key l).map f := by
  induction l with
  | nil => rfl
  | cons x r ih =>
    rw [List.map_cons, sortByDesc, sortByDesc, ih, insertByDesc_map h]

/-- Claim C6 (confirmed): for every query, candidate sequence,
processor, scorer, threshold and limit, the fallback fuzzy matcher
returns exactly the candidates scoring at least the threshold, ordered
by descending score with ties in original candidate order, truncated to
at most `limit`; in particular, when nothing reaches the threshold the
result is the empty list, an ordinary value.  Stated as: the matcher's
(candidate, score) projection equals the ranking written from the
spec's words. -/
theorem claim_C6_extract_ranking (query : Str) (choices : List Str)
    (processor : Option (Str → Str)) (scorer : Str → Str → Int)
    (threshold : Int) (limit : Nat) :
    (process_extract query choices processor scorer threshold limit).map
        (fun t => (t.1, t.2.1)) =
      specRankedMatches query choices processor scorer threshold limit := by
  unfold process_extract specRankedMatches
  simp only []
  set pq := applyProc processor query with hpq
  set pc := fun choice => applyProc processor choice with hpc
  set m2 : Str → Str × Int := fun c => (c, scorer pq (pc c)) with hm2
  set g : Str × Int → Str × Int × Nat := fun p => (p.1, p.2, 0) with hg
  set R2 : List (Str × Int) :=
    (choices.map m2).filter (fun q => threshold ≤ q.2) with hR2
  have h1 : (choices.map (fun choice => (choice, scorer pq (pc choice), (0 : Nat)))).filter
      (fun t => threshold ≤ t.2.1) = R2.map g := by
    rw [hR2, map_filter_eq (q := fun t => threshold ≤ t.2.1) (f := g) (fun x => rfl)]
    rw [List.map_map]
    rfl
  rw [h1]
  have h2 : sortByDesc (fun t : Str × Int × Nat => t.2.1) (R2.map g) =
      (sortByDesc (fun p : Str × Int => p.2) R2).map g :=
    sortByDesc_map (fun x => rfl) R2
  rw [h2]
  rw [List.map_take, List.map_map]
  have h3 : ((fun t : Str × Int × Nat => (t.1, t.2.1)) ∘ g) = id := rfl
  rw [h3, List.map_id]
  set indexed : List (Str × Int × Nat) :=
    (withIdx 0 choices).map (fun ci => (ci.1, scorer pq (pc ci.1), ci.2)) with hindexed
  set F := indexed.filter (fun t => threshold ≤ t.2.1) with hF
  have hpw : F.Pairwise (fun a b => a.2.2 < b.2.2) := by
    rw [hF]
    apply List.Pairwise.filter
    rw [hindexed]
    apply List.Pairwise.map
    · intro a b hab
      exact hab
    · exact pairwise_withIdx 0 choices
  rw [specSortRanked_map_pair hpw]
  have h4 : F.map (fun t => (t.1, t.2.1)) = R2 := by
    rw [hF]
    rw [map_filter_eq (q := fun q2 : Str × Int => threshold ≤ q2.2) (fun x => rfl)]
    rw [hindexed, List.map_map]
    rw [show ((fun t : Str × Int × Nat => (t.1, t.2.1)) ∘
        (fun ci : Str × Nat => (ci.1, scorer pq (pc ci.1), ci.2))) =
        (fun ci : Str × Nat => m2 ci.1) from rfl]
    rw [map_withIdx_fst m2 0 choices]
  rw [h4]

/-- Loop body of `src.chatbot._match_size_alias` over the candidate
sizes, threading the `(best_match, best_score)` pair (initially
`(None, 0.0)`).  A candidate replaces the best pair only when its score
strictly beats the best score and reaches the size similarity
threshold. -/
def msaLoop (scorer : Str → Str → Int) (config : ChatbotConfig) (nq : Str) :
    List Str → Option Str × Int → Option Str × Int
  | [], acc => acc
  | candidate :: rest, acc =>
    let score := scorer nq (normalize_size_phrase config candidate)
    if acc.2 < score ∧ config.size_similarity_threshold ≤ score then
      msaLoop scorer config nq rest (some candidate, score)
    else
      msaLoop scorer config nq rest acc

/-- Embedding of `src.chatbot._match_size_alias`; `scorer` stands for
`fuzz.token_set_ratio`. -/
def match_size_alias (scorer : Str → Str → Int) (config : ChatbotConfig)
    (size : Str) (available_sizes : List Str) : Option Str :=
  if size.isEmpty || available_sizes.isEmpty then none
  else
    let nq := normalize_size_phrase config size
    if nq.isEmpty then none
    else (msaLoop scorer config nq available_sizes (none, 0)).1

theorem msaLoop_sound {scorer : Str → Str → Int} {config : ChatbotConfig}
    {nq : Str} {c : Str} :
    ∀ {l : List Str} {acc : Option Str × Int},
      (msaLoop scorer config nq l acc).1 = some c →
      acc.1 = some c ∨
        (c ∈ l ∧
          config.size_similarity_threshold ≤ scorer nq (normalize_size_phrase config c)) := by
  intro l
  induction l with
  | nil =>
    intro acc h
    exact Or.inl h
  | cons candidate rest ih =>
    intro acc h
    rw [msaLoop] at h
    by_cases hc : acc.2 < scorer nq (normalize_size_phrase config candidate) ∧
        config.size_similarity_threshold ≤ scorer nq (normalize_size_phrase config candidate)
    · rw [if_pos hc] at h
      rcases ih h with h1 | h2
      · simp only [Option.some.injEq] at h1
        subst h1
        exact Or.inr ⟨List.mem_cons_self candidate rest, hc.2⟩
      · exact Or.inr ⟨List.mem_cons_of_mem candidate h2.1, h2.2⟩
    · rw [if_neg hc] at h
      rcases ih h with h1 | h2
      · exact Or.inl h1
      · exact Or.inr ⟨List.mem_cons_of_mem candidate h2.1, h2.2⟩

/-- Claim C10 (confirmed): whenever the size-alias matcher returns a
size label, that label is one of the supplied candidate labels (nothing
is fabricated), and the scorer value between the normalized query and
that normalized candidate reaches the configured size similarity
threshold. -/
theorem claim_C10_match_size_alias (scorer : Str → Str → Int)
    (config : ChatbotConfig) (size : Str) (available_sizes : List Str)
    (c : Str) (h : match_size_alias scorer config size available_sizes = some c) :
    c ∈ available_sizes ∧
      config.size_similarity_threshold ≤
        scorer (normalize_size_phrase config size) (normalize_size_phrase config c) := by
  unfold match_size_alias at h
  by_cases h1 : (size.isEmpty || available_sizes.isEmpty) = true
  · rw [if_pos h1] at h
    exact absurd h (by simp)
  · rw [if_neg h1] at h
    by_cases h2 : (normalize_size_phrase config size).isEmpty = true
    · rw [if_pos h2] at h
      exact absurd h (by simp)
    · rw [if_neg h2] at h
      rcases msaLoop_sound h with h3 | h4
      · exact absurd h3 (by simp)
      · exact h4

/-- Sample scorer used to witness `claim_C10_match_size_alias`: 100 for
an exact match of the normalized phrases, 0 otherwise. -/
def sampleSizeScorer (a b : Str) : Int := if a = b then 100 else 0

/-- Witness for claim C10: on the query `18ltr drum` against the single
candidate `18 Ltr (Drum)` with the default configuration, the matcher
returns that candidate, which is in the list and scores 100 ≥ 70. -/
theorem claim_C10_witness :
    ("18 Ltr (Drum)".toList) ∈ [("18 Ltr (Drum)".toList)] ∧
      DEFAULT_CONFIG.size_similarity_threshold ≤
        sampleSizeScorer
          (normalize_size_phrase DEFAULT_CONFIG ("18ltr drum".toList))
          (normalize_size_phrase DEFAULT_CONFIG ("18 Ltr (Drum)".toList)) :=
  claim_C10_match_size_alias sampleSizeScorer DEFAULT_CONFIG
    ("18ltr drum".toList) [("18 Ltr (Drum)".toList)] ("18 Ltr (Drum)".toList)
    (by decide)

/-- Python `needle in hay` substring containment test. -/
def containsSub (needle : Str) : Str → Bool
  | [] => needle.isEmpty
  | c :: t => needle.isPrefixOf (c :: t) || containsSub needle t

/-- Nested JSON-like values appearing in product records: strings,
lists, and string-keyed mappings (the shapes `_stringify` in
`src.data.products` recurses over; scalar numbers do not occur in the
product metadata fields the code reads). -/
inductive PVal where
  | s (v : Str)
  | l (vs : List PVal)
  | d (kvs : List (Str × PVal))

/-- A flattened product record from `src.data.products`: the
`product_name` value (a record lacking the key is modelled with the
`.get("product_name", "")` default `""`) together with the remaining
descriptive fields. -/
structure Product where
  name : Str
  fields : List (Str × PVal)

/-- Embedding of `src.data.products._normalize_text`:
`" ".join(value.strip().lower().split())`. -/
def products_normalize_text (v : Str) : Str :=
  joinSpace (pySplit (lowerStr (pyStrip v)))

/-- Embedding of `src.data.products.find_product_by_name`, with the
flattened product list (`get_all_products()`) passed explicitly: empty
query short-circuits to `None`; otherwise first product with equal
normalized name, else first product whose normalized name contains the
normalized query as a substring, else `None`. -/
def find_product_by_name (products : List Product) (name : Str) : Option Product :=
  if name.isEmpty then none
  else
    match products.find? (fun p =>
        products_normalize_text p.name == products_normalize_text name) with
    | some p => some p
    | none =>
      products.find? (fun p =>
        containsSub (products_normalize_text name) (products_normalize_text p.name))

/-- Embedding of `src.data.products.list_product_names`: the names of
all products that have a truthy `product_name`. -/
def list_product_names (products : List Product) : List Str :=
  (products.filter (fun p => !p.name.isEmpty)).map (fun p => p.name)

/-- Claim C9 (corrected), counterexample: for the empty query string
the claim fails.  A catalog holding a product whose name normalizes to
the normalized empty query (an exact match) plus a product `x` that
only partially matches still yields `None`, because
`find_product_by_name` short-circuits on a falsy (empty) name before
any matching. -/
theorem claim_C9_counterexample :
    (∃ p ∈ [(⟨[], []⟩ : Product), ⟨("x".toList), []⟩],
        products_normalize_text p.name = products_normalize_text []) ∧
      (find_product_by_name [⟨[], []⟩, ⟨("x".toList), []⟩] []).isNone = true := by
  constructor
  · exact ⟨⟨[], []⟩, by simp, rfl⟩
  · rfl

/-- Claim C9 (corrected), amended claim: for every non-empty query
string and every catalog containing a product whose normalized name
equals the normalized query, name resolution returns a product that is
such an exact match - the exact case-insensitive match always outranks
or ties any partial match (which is only consulted when no exact match
exists). -/
theorem claim_C9_amended (products : List Product) (name : Str)
    (hne : name.isEmpty = false)
    (hex : ∃ p ∈ products,
      products_normalize_text p.name = products_normalize_text name) :
    ∃ p, find_product_by_name products name = some p ∧
      products_normalize_text p.name = products_normalize_text name := by
  unfold find_product_by_name
  rw [if_neg (by simp [hne])]
  have hsome : (products.find? (fun p =>
      products_normalize_text p.name == products_normalize_text name)).isSome := by
    rw [List.find?_isSome]
    rcases hex with ⟨p, hp, he⟩
    exact ⟨p, hp, by simp [he]⟩
  cases hfind : products.find? (fun p =>
      products_normalize_text p.name == products_normalize_text name) with
  | none => rw [hfind] at hsome; simp at hsome
  | some p =>
    refine ⟨p, rfl, ?_⟩
    have := List.find?_some hfind
    simpa using this

/-- Witness for the amended claim C9: the query `ab` against a catalog
holding the product `Ab` resolves to that product via the exact
normalized match. -/
theorem claim_C9_witness :
    ∃ p, find_product_by_name [(⟨("Ab".toList), []⟩ : Product)] ("ab".toList) = some p ∧
      products_normalize_text p.name = products_normalize_text ("ab".toList) :=
  claim_C9_amended [⟨("Ab".toList), []⟩] ("ab".toList) (by decide)
    ⟨⟨("Ab".toList), []⟩, by simp, by decide⟩

/-- Embedding of `src.rag.RetrievedChunk`.  Scores are floats in the
source but always sums of substring occurrence counts, hence naturals;
`metadata` dictionaries are opaque values of type `μ`. -/
structure RetrievedChunk (μ : Type) where
  text : Str
  score : Nat
  metadata : μ

/-- Embedding of `src.rag._normalise_text`:
`" ".join(value.lower().split())`. -/
def rag_normalise_text (v : Str) : Str := joinSpace (pySplit (lowerStr v))

/-- Helper for Python `hay.count(needle)` with a non-empty needle: scan
left to right; `skip` counts positions still covered by the previous
match (occurrences are non-overlapping). -/
def countSubAux (needle : Str) : Str → Nat → Nat
  | [], _ => 0
  | _ :: t, k + 1 => countSubAux needle t k
  | c :: t, 0 =>
    if needle.isPrefixOf (c :: t) then 1 + countSubAux needle t (needle.length - 1)
    else countSubAux needle t 0

/-- Python `hay.count(needle)`: number of non-overlapping occurrences
of `needle` in `hay`, counted from the left (`len(hay) + 1` for the
empty needle, as in Python). -/
def countSub (hay needle : Str) : Nat :=
  if needle.isEmpty then hay.length + 1 else countSubAux needle hay 0

/-- Embedding of `src.rag.RetrievalPipeline._score_text`: sum over the
non-empty tokens of the occurrence count of the token in the lowered
text (counts of zero contribute nothing). -/
def score_text (text : Str) (tokens : List Str) : Nat :=
  tokens.foldl
    (fun score token =>
      if token.isEmpty then score
      else
        if countSub (lowerStr text) token = 0 then score
        else score + countSub (lowerStr text) token)
    0

/-- Embedding of `src.rag.RetrievalPipeline.get_contexts` with the
loaded records passed explicitly as `(text, metadata)` pairs (the
`rerank_k` parameter is deleted unused by the source): tokenize the
normalized query (empty token list short-circuits to `[]`), keep the
records with positive score as chunks in corpus order, fall back to the
first `top_k` records with score 0 when no record scores positively,
sort by descending score (stable) and truncate to `top_k`. -/
def get_contexts (records : List (Str × μ)) (query : Str) (top_k : Nat) :
    List (RetrievedChunk μ) :=
  let tokens := (pySplit (rag_normalise_text query)).filter (fun t => !t.isEmpty)
  if tokens.isEmpty then []
  else
    let ranked := records.filterMap (fun r =>
      if score_text r.1 tokens ≤ 0 then none
      else some (RetrievedChunk.mk r.1 (score_text r.1 tokens) r.2))
    let ranked2 :=
      if ranked.isEmpty then
        (records.take top_k).map (fun r => RetrievedChunk.mk r.1 0 r.2)
      else ranked
    (sortByDesc (fun chunk => (chunk.score : Int)) ranked2).take top_k

theorem score_text_zero {text : Str} {tokens : List Str}
    (h : ∀ t ∈ tokens, countSub (lowerStr text) t = 0) :
    score_text text tokens = 0 := by
  unfold score_text
  have hgen : ∀ (ts : List Str), (∀ t ∈ ts, countSub (lowerStr text) t = 0) →
      ∀ acc : Nat, ts.foldl
        (fun score token =>
          if token.isEmpty then score
          else
            if countSub (lowerStr text) token = 0 then score
            else score + countSub (lowerStr text) token) acc = acc := by
    intro ts
    induction ts with
    | nil => intro _ acc; rfl
    | cons t rest ih =>
      intro hz acc
      rw [List.foldl_cons]
      by_cases hemp : t.isEmpty = true
      · rw [if_pos hemp]
        exact ih (fun u hu => hz u (List.mem_cons_of_mem t hu)) acc
      · rw [if_neg hemp, if_pos (hz t (List.mem_cons_self t rest))]
        exact ih (fun u hu => hz u (List.mem_cons_of_mem t hu)) acc
  exact hgen tokens h 0

theorem mem_insertByDesc {key : α → Int} {x y : α} {l : List α}
    (h : y ∈ insertByDesc key x l) : y = x ∨ y ∈ l := by
  induction l with
  | nil => simpa [insertByDesc] using h
  | cons z r ih =>
    rw [insertByDesc] at h
    by_cases hc : key z ≤ key x
    · rw [if_pos hc] at h
      rcases List.mem_cons.mp h with h1 | h2
      · exact Or.inl h1
      · exact Or.inr h2
    · rw [if_neg hc] at h
      rcases List.mem_cons.mp h with h1 | h2
      · exact Or.inr (h1 ▸ List.mem_cons_self z r)
      · rcases ih h2 with h3 | h4
        · exact Or.inl h3
        · exact Or.inr (List.mem_cons_of_mem z h4)

theorem mem_sortByDesc {key : α → Int} {y : α} {l : List α}
    (h : y ∈ sortByDesc key l) : y ∈ l := by
  induction l with
  | nil => simpa [sortByDesc] using h
  | cons z r ih =>
    rw [sortByDesc] at h
    rcases mem_insertByDesc h with h1 | h2
    · exact h1 ▸ List.mem_cons_self z r
    · exact List.mem_cons_of_mem z (ih h2)

theorem sortByDesc_all_eq {key : α → Int} {v : Int} {l : List α}
    (h : ∀ x ∈ l, key x = v) : sortByDesc key l = l := by
  induction l with
  | nil => rfl
  | cons x r ih =>
    rw [sortByDesc, ih (fun z hz => h z (List.mem_cons_of_mem x hz))]
    cases r with
    | nil => rfl
    | cons y r2 =>
      rw [insertByDesc, if_pos]
      rw [h y (List.mem_cons_of_mem x (List.mem_cons_self y r2)),
        h x (List.mem_cons_self x (y :: r2))]

/-- Claim C7 (corrected), counterexample: for the empty query (which
has no tokens, so vacuously none of its tokens occurs in any chunk) on
a one-chunk corpus, `get_contexts` returns the empty list rather than
`min(top_k, N) = 1` fallback chunks: the tokenless case short-circuits
before the fallback. -/
theorem claim_C7_counterexample :
    (get_contexts [(("alpha".toList), ())] [] 18).length ≠ min 18 1 := by
  decide

/-- Claim C7 (corrected), amended claim: for every corpus, every
`top_k`, and every query that has at least one token but none of whose
tokens occurs in any chunk's lowered text, the Retrieval Ranker
returns exactly `min(top_k, N)` chunks, each with score 0, taken from
the front of the corpus in order, rather than an empty list. -/
theorem claim_C7_amended (records : List (Str × μ)) (query : Str) (top_k : Nat)
    (htok : ((pySplit (rag_normalise_text query)).filter (fun t => !t.isEmpty)).isEmpty = false)
    (hmiss : ∀ r ∈ records,
      ∀ t ∈ (pySplit (rag_normalise_text query)).filter (fun t => !t.isEmpty),
        countSub (lowerStr r.1) t = 0) :
    get_contexts records query top_k =
        (records.take top_k).map (fun r => RetrievedChunk.mk r.1 0 r.2) ∧
      (get_contexts records query top_k).length = min top_k records.length := by
  have hmain : get_contexts records query top_k =
      (records.take top_k).map (fun r => RetrievedChunk.mk r.1 0 r.2) := by
    unfold get_contexts
    rw [if_neg (by simp [htok])]
    have hranked : records.filterMap (fun r =>
        if score_text r.1 ((pySplit (rag_normalise_text query)).filter (fun t => !t.isEmpty)) ≤ 0 then none
        else some (RetrievedChunk.mk r.1
          (score_text r.1 ((pySplit (rag_normalise_text query)).filter (fun t => !t.isEmpty))) r.2)) = [] := by
      rw [List.filterMap_eq_nil]
      intro r hr
      rw [if_pos]
      rw [score_text_zero (hmiss r hr)]
    rw [hranked]
    simp only [List.isEmpty_nil, if_pos]
    rw [sortByDesc_all_eq (v := 0)]
    · rw [List.map_take, List.take_take, min_self]
    · intro x hx
      rcases List.mem_map.mp hx with ⟨r, _, rfl⟩
      rfl
  refine ⟨hmain, ?_⟩
  rw [hmain, List.length_map, List.length_take]

/-- Witness for the amended claim C7: a two-token query with no
occurrences in the single-chunk corpus yields exactly that chunk with
score 0, i.e. `min(3, 1) = 1` chunk. -/
theorem claim_C7_witness :
    get_contexts [(("alpha".toList), ())] ("zz qq".toList) 3 =
        (([(("alpha".toList), ())] : List (Str × Unit)).take 3).map
          (fun r => RetrievedChunk.mk r.1 0 r.2) ∧
      (get_contexts [(("alpha".toList), ())] ("zz qq".toList) 3).length =
        min 3 ([(("alpha".toList), ())] : List (Str × Unit)).length :=
  claim_C7_amended [(("alpha".toList), ())] ("zz qq".toList) 3 (by decide) (by decide)

/-- Replace en and em dashes by plain hyphens
(`_DASH_TRANSLATION` in `src.data.prices`). -/
def dashTranslate (l : Str) : Str :=
  l.map (fun c =>
    if c = Char.ofNat 8211 ∨ c = Char.ofNat 8212 then '-' else c)

/-- Embedding of `src.data.prices._normalize_size_key`: dash
translation, strip, lower-case, collapse whitespace runs. -/
def normalize_size_key (size : Str) : Str :=
  collapseWS (lowerStr (pyStrip (dashTranslate size)))

/-- One value of the `prices` mapping inside a cached `_PRICE_DATA`
entry of `src.data.prices`: the display size label, the normalized
price (in hundredths) and the currency. -/
structure DpSizeInfo where
  size : Str
  price : Nat
  currency : Str

/-- One cached `_PRICE_DATA` entry of `src.data.prices`: product names,
currency, and the size-keyed price mapping (keys are normalized size
keys; insertion order as in the source's `OrderedDict`). -/
structure DpEntry where
  product_names : List Str
  currency : Str
  prices : List (Str × DpSizeInfo)

/-- The cached `_PRICE_DATA` mapping of `src.data.prices`, keyed by
uppercased trimmed product code. -/
abbrev DpPriceData := List (Str × DpEntry)

/-- Embedding of `src.data.prices.get_price` over the cached price
mapping (the module-level `_PRICE_DATA`, passed explicitly): `None`
when the uppercased trimmed code is absent, `None` when the normalized
size key is absent for that code, otherwise the price. -/
def get_price (data : DpPriceData) (code size : Str) : Option Nat :=
  match List.lookup (upperStr (pyStrip code)) data with
  | none => none
  | some entry =>
    match List.lookup (normalize_size_key size) entry.prices with
    | none => none
    | some info => some info.price

/-- One entry of a product's `prices` list in the raw price-list
document read by `paint_assistant`: the `size` value when present and a
string (entries failing the `isinstance(size_label, str)` check are
modelled as `none`), and the price. -/
structure PaTier where
  size : Option Str
  price : Nat

/-- One product of the raw price-list document (`product_code` absent
or non-string modelled as `none`). -/
structure PaProduct where
  product_code : Option Str
  prices : List PaTier

/-- One subcategory of the raw price-list document. -/
structure PaSub where
  products : List PaProduct

/-- One category of the raw price-list document. -/
structure PaCat where
  subcategories : List PaSub

/-- The raw price-list document (`pricelistnationalpaints.json`) as
read by `paint_assistant`. -/
structure PaDoc where
  product_categories : List PaCat

/-- Embedding of `paint_assistant._iter_price_products`: all products,
category by category, subcategory by subcategory. -/
def iter_price_products (doc : PaDoc) : List PaProduct :=
  (doc.product_categories.map
    (fun cat => (cat.subcategories.map (fun sub => sub.products)).join)).join

/-- Embedding of `paint_assistant._normalize_product_code`:
`value.strip().upper()`. -/
def pa_normalize_product_code (v : Str) : Str := upperStr (pyStrip v)

/-- Embedding of `paint_assistant._normalize_size`:
`" ".join(value.strip().lower().split())`. -/
def pa_normalize_size (v : Str) : Str := joinSpace (pySplit (lowerStr (pyStrip v)))

/-- The two `KeyError` exceptions `paint_assistant.get_price` raises
(per its docstring): unknown size for a matched code, and unknown
code. -/
inductive PaKeyError where
  | sizeNotFound (size code : Str)
  | codeNotFound (code : Str)
deriving DecidableEq

/-- Loop of `paint_assistant.get_price` over the flattened product
list: the first product whose normalized code matches decides the
result (price of the first size match, else `KeyError` for the size);
running out of products raises `KeyError` for the code.  `Except.error`
models a raised `KeyError`. -/
def pa_find_price (target nsize size code : Str) :
    List PaProduct → Except PaKeyError Nat
  | [] => Except.error (PaKeyError.codeNotFound code)
  | p :: rest =>
    match p.product_code with
    | some c =>
      if pa_normalize_product_code c = target then
        match p.prices.find? (fun e =>
            match e.size with
            | some s => pa_normalize_size s == nsize
            | none => false) with
        | some e => Except.ok e.price
        | none => Except.error (PaKeyError.sizeNotFound size code)
      else pa_find_price target nsize size code rest
    | none => pa_find_price target nsize size code rest

/-- Embedding of `paint_assistant.get_price` over an explicit price
document: raises (`Except.error`) on unknown code or unknown size, as
its docstring documents. -/
def pa_get_price (doc : PaDoc) (code size : Str) : Except PaKeyError Nat :=
  pa_find_price (pa_normalize_product_code code) (pa_normalize_size size)
    size code (iter_price_products doc)

/-- Price-list document fixture: product code `A119` with the price
tier `18 Ltr (Drum)` at 80.00. -/
def paFixtureDoc : PaDoc :=
  ⟨[⟨[⟨[⟨some ("A119".toList), [⟨some ("18 Ltr (Drum)".toList), 8000⟩]⟩]⟩]⟩]⟩

/-- Cached-price-data fixture mirroring `paFixtureDoc` for
`src.data.prices.get_price`: entry `A119` with one size key. -/
def dpFixtureData : DpPriceData :=
  [(("A119".toList),
    ⟨[("National Acrylic Primer (W.B.)".toList)], ("AED".toList),
      [(("18 ltr (drum)".toList),
        ⟨("18 Ltr (Drum)".toList), 8000, ("AED".toList)⟩)]⟩)]

/-- Claim C2 (corrected), counterexample: the ordinary no-match lookup
`get_price("ZZZZ", "18 Ltr (Drum)")` in `paint_assistant` raises
`KeyError` (modelled as `Except.error`) instead of returning a
structured not-found result, so an exception does propagate out of a
public price-lookup operation on an unknown code. -/
theorem claim_C2_counterexample :
    pa_get_price paFixtureDoc ("ZZZZ".toList) ("18 Ltr (Drum)".toList) =
      Except.error (PaKeyError.codeNotFound ("ZZZZ".toList)) := by
  rfl

theorem lookup_eq_none_of_forall {β : Type} {k : Str} {d : List (Str × β)}
    (h : ∀ kv ∈ d, kv.1 ≠ k) : List.lookup k d = none := by
  induction d with
  | nil => rfl
  | cons kv rest ih =>
    rw [List.lookup]
    have hne : (k == kv.1) = false := by
      have := h kv (List.mem_cons_self kv rest)
      simp
      exact fun he => this (by rw [he])
    rw [hne]
    exact ih (fun kv2 h2 => h kv2 (List.mem_cons_of_mem kv h2))

theorem lookup_mem {β : Type} {k : Str} {d : List (Str × β)} {v : β}
    (h : List.lookup k d = some v) : (k, v) ∈ d := by
  induction d with
  | nil => simp [List.lookup] at h
  | cons kv rest ih =>
    rw [List.lookup] at h
    by_cases he : (k == kv.1) = true
    · rw [he] at h
      simp only [Option.some.injEq] at h
      have hk : k = kv.1 := by simpa using he
      rw [hk, ← h]
      exact List.mem_cons_self kv rest
    · rw [Bool.of_not_eq_true he] at h
      exact List.mem_cons_of_mem kv (ih h)

/-- Claim C2 (corrected), amended claim: the core data-layer lookup
`src.data.prices.get_price` returns `None` (a structured not-found) on
an unknown product code and on a known code with an unknown size, but
the top-level `paint_assistant.get_price` raises `KeyError` on an
unknown product code, as its docstring documents - so "no exception
propagates" holds for the `src.data.prices` operation only. -/
theorem claim_C2_amended (data : DpPriceData) (doc : PaDoc) (code size : Str) :
    ((∀ kv ∈ data, kv.1 ≠ upperStr (pyStrip code)) →
        get_price data code size = none) ∧
      ((∀ kv ∈ data, kv.1 = upperStr (pyStrip code) →
          ∀ pr ∈ kv.2.prices, pr.1 ≠ normalize_size_key size) →
        get_price data code size = none) ∧
      ((∀ p ∈ iter_price_products doc, ∀ c, p.product_code = some c →
          pa_normalize_product_code c ≠ pa_normalize_product_code code) →
        pa_get_price doc code size =
          Except.error (PaKeyError.codeNotFound code)) := by
  refine ⟨?_, ?_, ?_⟩
  · intro h
    unfold get_price
    rw [lookup_eq_none_of_forall h]
  · intro h
    unfold get_price
    cases hc : List.lookup (upperStr (pyStrip code)) data with
    | none => rfl
    | some entry =>
      have hmem := lookup_mem hc
      have h2 : ∀ pr ∈ entry.prices, pr.1 ≠ normalize_size_key size :=
        h (upperStr (pyStrip code), entry) hmem rfl
      show (match List.lookup (normalize_size_key size) entry.prices with
        | none => none
        | some info => some info.price) = none
      rw [lookup_eq_none_of_forall h2]
  · intro h
    unfold pa_get_price
    have hgen : ∀ ps : List PaProduct,
        (∀ p ∈ ps, ∀ c, p.product_code = some c →
          pa_normalize_product_code c ≠ pa_normalize_product_code code) →
        pa_find_price (pa_normalize_product_code code) (pa_normalize_size size)
            size code ps =
          Except.error (PaKeyError.codeNotFound code) := by
      intro ps
      induction ps with
      | nil => intro _; rfl
      | cons p rest ih =>
        intro hp
        cases hpc : p.product_code with
        | none =>
          simp only [pa_find_price, hpc]
          exact ih (fun q hq => hp q (List.mem_cons_of_mem p hq))
        | some c =>
          simp only [pa_find_price, hpc]
          rw [if_neg (hp p (List.mem_cons_self p rest) c hpc)]
          exact ih (fun q hq => hp q (List.mem_cons_of_mem p hq))
    exact hgen (iter_price_products doc) h

/-- Witness for the amended claim C2: on the fixtures, `ZZZZ` is
unknown to both lookups (`None` vs. raised `KeyError`), and the known
code `A119` with the unknown size `1 Ltr` yields `None` from the data
layer. -/
theorem claim_C2_witness :
    get_price dpFixtureData ("ZZZZ".toList) ("18 Ltr (Drum)".toList) = none ∧
      get_price dpFixtureData ("A119".toList) ("1 Ltr".toList) = none ∧
      pa_get_price paFixtureDoc ("ZZZZ".toList) ("18 Ltr (Drum)".toList) =
        Except.error (PaKeyError.codeNotFound ("ZZZZ".toList)) :=
  ⟨(claim_C2_amended dpFixtureData paFixtureDoc ("ZZZZ".toList)
      ("18 Ltr (Drum)".toList)).1 (by decide),
    (claim_C2_amended dpFixtureData paFixtureDoc ("A119".toList)
      ("1 Ltr".toList)).2.1 (by decide),
    (claim_C2_amended dpFixtureData paFixtureDoc ("ZZZZ".toList)
      ("18 Ltr (Drum)".toList)).2.2 (by decide)⟩

/-- Case-insensitive prefix test, modelling how a literal or
alternation word in a pattern compiled with `re.IGNORECASE` consumes
input. -/
def startsWithCI : Str → Str → Bool
  | [], _ => true
  | _ :: _, [] => false
  | p :: ps, c :: cs => lowerChar p = lowerChar c && startsWithCI ps cs

/-- Character class `[A-Za-z0-9-]` of the code groups in
`_PRICE_PATTERNS` and `_PRICE_RE`. -/
def isCodeChar (c : Char) : Bool := isAsciiAlnum c || c = '-'

/-- Backtracking step for `\s+(?P<size>.+)`: try whitespace-run
lengths from `k` down to 1 (greedy `\s+` first; `.` also matches
whitespace but never a newline, so on failure one whitespace character
at a time is handed over to the greedy `.+` group). -/
def dotTailBt (l : Str) : Nat → Option Str
  | 0 => none
  | k + 1 =>
    match l.drop (k + 1) with
    | [] => dotTailBt l k
    | c :: rest =>
      if c = '\n' then dotTailBt l k
      else some ((c :: rest).takeWhile (fun x => x ≠ '\n'))

/-- Matcher for the regex tail `\s+(?P<size>.+)` at the front of `l`,
returning the size group. -/
def spaceDotTail (l : Str) : Option Str :=
  dotTailBt l (l.takeWhile isPySpace).length

/-- First-success choice: the behaviour of a regex alternation whose
earlier branch (together with its continuation) is preferred. -/
def orTry : Option α → Option α → Option α
  | some v, _ => some v
  | none, o => o

/-- Alternation `(?:in|for|at)` of pattern 1 followed by
`\s+(?P<size>.+)`, tried in the pattern's order; a branch whose
continuation fails falls through to the next alternative. -/
def sepSizeAlts (r : Str) : Option Str :=
  orTry (if startsWithCI ("in".toList) r then spaceDotTail (r.drop 2) else none)
    (orTry (if startsWithCI ("for".toList) r then spaceDotTail (r.drop 3) else none)
      (if startsWithCI ("at".toList) r then spaceDotTail (r.drop 2) else none))

/-- Matcher for `\s+(?:in|for|at)\s+(?P<size>.+)` at the front of `l`:
the whitespace run is taken maximally (every alternative starts with a
letter, so a shorter run cannot succeed), then the alternation. -/
def sepSizeTail (l : Str) : Option Str :=
  if (l.takeWhile isPySpace).isEmpty then none
  else sepSizeAlts (l.dropWhile isPySpace)

/-- Match of pattern 1,
`(?P<code>[A-Za-z0-9-]+)\s+(?:in|for|at)\s+(?P<size>.+)`, anchored at
the front of `l`: the code group is the maximal run of code characters
(a shorter run would leave a code character where `\s+` must match, so
the engine's backtracking into the group cannot succeed). -/
def pat1At (l : Str) : Option (Str × Str) :=
  let k := (l.takeWhile isCodeChar).length
  if k = 0 then none
  else
    match sepSizeTail (l.drop k) with
    | some size => some (l.take k, size)
    | none => none

/-- `pattern.search` for pattern 1: try each start position from the
left (leftmost match wins). -/
def pat1Search : Str → Option (Str × Str)
  | [] => none
  | c :: r =>
    match pat1At (c :: r) with
    | some res => some res
    | none => pat1Search r

/-- Matcher for `\s+(?P<code>[A-Za-z0-9-]+)` at the front of `l` (the
tail of pattern 2): maximal whitespace run, then the maximal non-empty
code run (the group is greedy and ends the pattern). -/
def spaceCodeTail (l : Str) : Option Str :=
  if (l.takeWhile isPySpace).isEmpty then none
  else
    if ((l.dropWhile isPySpace).takeWhile isCodeChar).isEmpty then none
    else some ((l.dropWhile isPySpace).takeWhile isCodeChar)

/-- Alternation `(?:for|in|at)` of pattern 2 (a different order than
pattern 1) followed by `\s+(?P<code>[A-Za-z0-9-]+)`. -/
def sepCodeAlts (r : Str) : Option Str :=
  orTry (if startsWithCI ("for".toList) r then spaceCodeTail (r.drop 3) else none)
    (orTry (if startsWithCI ("in".toList) r then spaceCodeTail (r.drop 2) else none)
      (if startsWithCI ("at".toList) r then spaceCodeTail (r.drop 2) else none))

/-- Matcher for `\s+(?:for|in|at)\s+(?P<code>[A-Za-z0-9-]+)` at the
front of `l`. -/
def sepCodeTail (l : Str) : Option Str :=
  if (l.takeWhile isPySpace).isEmpty then none
  else sepCodeAlts (l.dropWhile isPySpace)

/-- Lazy expansion of `(?P<size>.+?)` in pattern 2: `acc` holds the
group read so far (reversed); first try to complete the match at the
current boundary, then extend the group by one non-newline
character. -/
def pat2Lazy : Str → Str → Option (Str × Str)
  | acc, [] =>
    match sepCodeTail [] with
    | some code => some (code, acc.reverse)
    | none => none
  | acc, c :: r =>
    match sepCodeTail (c :: r) with
    | some code => some (code, acc.reverse)
    | none => if c = '\n' then none else pat2Lazy (c :: acc) r

/-- Match of pattern 2,
`(?P<size>.+?)\s+(?:for|in|at)\s+(?P<code>[A-Za-z0-9-]+)`, anchored at
the front of `l` (the lazy group needs at least one non-newline
character); returns `(code, size)`. -/
def pat2At : Str → Option (Str × Str)
  | [] => none
  | c :: r => if c = '\n' then none else pat2Lazy [c] r

/-- `pattern.search` for pattern 2. -/
def pat2Search : Str → Option (Str × Str)
  | [] => none
  | c :: r =>
    match pat2At (c :: r) with
    | some res => some res
    | none => pat2Search r

/-- Match of pattern 3,
`code\s+(?P<code>[A-Za-z0-9-]+)\s+(?:in|for|at)\s+(?P<size>.+)`,
anchored at the front of `l`: the literal `code` (case-insensitive), a
maximal whitespace run, then exactly the anchored shape of
pattern 1. -/
def pat3At (l : Str) : Option (Str × Str) :=
  if startsWithCI ("code".toList) l then
    if ((l.drop 4).takeWhile isPySpace).isEmpty then none
    else pat1At ((l.drop 4).dropWhile isPySpace)
  else none

/-- `pattern.search` for pattern 3. -/
def pat3Search : Str → Option (Str × Str)
  | [] => none
  | c :: r =>
    match pat3At (c :: r) with
    | some res => some res
    | none => pat3Search r

/-- Group handling of `_extract_code_and_size` after a pattern match:
strip both groups, accept only a truthy (non-empty) code, otherwise
fall through to the next pattern. -/
def patAccept (res : Option (Str × Str)) : Option (Str × Str) :=
  match res with
  | none => none
  | some (code0, size0) =>
    if (strip_trailing_punctuation code0).isEmpty then none
    else some (strip_trailing_punctuation code0, strip_trailing_punctuation size0)

/-- The whitespace-token fallback of `_extract_code_and_size`:
`tokens[0]` stripped as the code, the remaining tokens re-joined with
single spaces and stripped as the size; `None` with no tokens. -/
def extractFallback (text : Str) : Option (Str × Str) :=
  match pySplit text with
  | [] => none
  | t :: ts =>
    some (strip_trailing_punctuation t, strip_trailing_punctuation (joinSpace ts))

/-- Embedding of `src.chatbot._extract_code_and_size`: try the three
`_PRICE_PATTERNS` in order, keeping the first match with a truthy
stripped code group; with no pattern match, use the whitespace-token
fallback. -/
def extract_code_and_size (text : Str) : Option (Str × Str) :=
  match patAccept (pat1Search text) with
  | some res => some res
  | none =>
    match patAccept (pat2Search text) with
    | some res => some res
    | none =>
      match patAccept (pat3Search text) with
      | some res => some res
      | none => extractFallback text

/-- Is the first character a whitespace character? -/
def headSpace : Str → Bool
  | [] => false
  | c :: _ => isPySpace c

/-- Does the string begin with one of the separator words `in`, `for`,
`at` (case-insensitively) immediately followed by a whitespace
character? -/
def sepThenSpace (l : Str) : Bool :=
  (startsWithCI ("in".toList) l && headSpace (l.drop 2)) ||
    (startsWithCI ("for".toList) l && headSpace (l.drop 3)) ||
    (startsWithCI ("at".toList) l && headSpace (l.drop 2))

/-- The text contains an occurrence of `in`, `for` or `at`
(case-insensitive) with whitespace immediately before and after it -
the shape every separator consumed by the three price patterns must
have. -/
def hasFlankedSep : Str → Bool
  | [] => false
  | c :: r => (isPySpace c && sepThenSpace r) || hasFlankedSep r

theorem headSpace_of_takeWhile {l : Str}
    (h : (l.takeWhile isPySpace).isEmpty = false) : headSpace l = true := by
  cases l with
  | nil => simp [List.takeWhile] at h
  | cons c r =>
    rw [List.takeWhile_cons] at h
    by_cases hc : isPySpace c = true
    · simp [headSpace, hc]
    · rw [if_neg (by simp [hc])] at h
      simp at h

theorem spaceDotTail_headSpace {l : Str} {s : Str}
    (h : spaceDotTail l = some s) : headSpace l = true := by
  apply headSpace_of_takeWhile
  unfold spaceDotTail at h
  cases hk : (l.takeWhile isPySpace).length with
  | zero =>
    rw [hk] at h
    simp [dotTailBt] at h
  | succ n =>
    simp [List.isEmpty_iff, ← List.length_eq_zero]
    omega

theorem spaceCodeTail_headSpace {l : Str} {s : Str}
    (h : spaceCodeTail l = some s) : headSpace l = true := by
  apply headSpace_of_takeWhile
  unfold spaceCodeTail at h
  by_cases he : (l.takeWhile isPySpace).isEmpty = true
  · rw [if_pos he] at h
    simp at h
  · simp [he]

theorem orTry_some {o1 o2 : Option α} {v : α}
    (h : orTry o1 o2 = some v) : o1 = some v ∨ (o1 = none ∧ o2 = some v) := by
  cases o1 with
  | some w => exact Or.inl h
  | none => exact Or.inr ⟨rfl, h⟩

theorem altSome {A : Bool} {x : Str} {s : Str}
    (h : (if A = true then spaceDotTail x else none) = some s) :
    A = true ∧ headSpace x = true := by
  by_cases hA : A = true
  · rw [if_pos hA] at h
    exact ⟨hA, spaceDotTail_headSpace h⟩
  · rw [if_neg hA] at h
    simp at h

theorem altSomeCode {A : Bool} {x : Str} {s : Str}
    (h : (if A = true then spaceCodeTail x else none) = some s) :
    A = true ∧ headSpace x = true := by
  by_cases hA : A = true
  · rw [if_pos hA] at h
    exact ⟨hA, spaceCodeTail_headSpace h⟩
  · rw [if_neg hA] at h
    simp at h

theorem sepSizeAlts_sep {r : Str} {s : Str}
    (h : sepSizeAlts r = some s) : sepThenSpace r = true := by
  unfold sepSizeAlts at h
  unfold sepThenSpace
  rcases orTry_some h with h1 | ⟨_, h2⟩
  · obtain ⟨hA, hB⟩ := altSome h1
    rw [hA, hB]
    rfl
  · rcases orTry_some h2 with h3 | ⟨_, h4⟩
    · obtain ⟨hA, hB⟩ := altSome h3
      rw [hA, hB]
      simp
    · obtain ⟨hA, hB⟩ := altSome h4
      rw [hA, hB]
      simp

theorem sepCodeAlts_sep {r : Str} {s : Str}
    (h : sepCodeAlts r = some s) : sepThenSpace r = true := by
  unfold sepCodeAlts at h
  unfold sepThenSpace
  rcases orTry_some h with h1 | ⟨_, h2⟩
  · obtain ⟨hA, hB⟩ := altSomeCode h1
    rw [hA, hB]
    simp
  · rcases orTry_some h2 with h3 | ⟨_, h4⟩
    · obtain ⟨hA, hB⟩ := altSomeCode h3
      rw [hA, hB]
      simp
    · obtain ⟨hA, hB⟩ := altSomeCode h4
      rw [hA, hB]
      simp

theorem spacedAlts_flanked {alts : Str → Option Str}
    (halts : ∀ {r2 s2 : Str}, alts r2 = some s2 → sepThenSpace r2 = true) :
    ∀ {l : Str} {s : Str},
      (if (l.takeWhile isPySpace).isEmpty = true then none
        else alts (l.dropWhile isPySpace)) = some s →
      hasFlankedSep l = true := by
  intro l
  induction l with
  | nil =>
    intro s h
    simp [List.takeWhile] at h
  | cons c r ih =>
    intro s h
    by_cases hc : isPySpace c = true
    · simp only [List.takeWhile_cons, List.dropWhile_cons, hc, if_true, List.isEmpty_cons,
        if_false, Bool.false_eq_true] at h
      cases r with
      | nil =>
        rw [show ((List.nil : Str).dropWhile isPySpace) = [] from rfl] at h
        rw [show alts [] = none from ?_] at h
        · exact absurd h (by simp)
        · by_cases ha : (alts []).isSome = true
          · rcases Option.isSome_iff_exists.mp ha with ⟨v, hv⟩
            have := halts hv
            simp [sepThenSpace, startsWithCI] at this
          · simpa using ha
      | cons c2 r2 =>
        by_cases hc2 : isPySpace c2 = true
        · have hrec : sepThenSpace (c2 :: r2) = true ∨ hasFlankedSep (c2 :: r2) = true := by
            right
            apply ih
            simp only [List.takeWhile_cons, List.dropWhile_cons, hc2, if_true,
              List.isEmpty_cons, if_false, Bool.false_eq_true]
            simp only [List.dropWhile_cons, hc2, if_true] at h
            exact h
          rw [hasFlankedSep]
          rcases hrec with h1 | h2
          · simp [hc, h1]
          · simp [h2]
        · simp only [List.dropWhile_cons, hc2, if_false, Bool.false_eq_true] at h
          have hsep := halts h
          rw [hasFlankedSep]
          simp [hc, hsep]
    · simp only [List.takeWhile_cons, hc, if_false, Bool.false_eq_true, List.isEmpty_nil,
        if_true] at h
      exact absurd h (by simp)

theorem sepSizeTail_flanked {l : Str} {s : Str}
    (h : sepSizeTail l = some s) : hasFlankedSep l = true := by
  apply spacedAlts_flanked (fun h2 => sepSizeAlts_sep h2)
  unfold sepSizeTail at h
  exact h

theorem sepCodeTail_flanked {l : Str} {s : Str}
    (h : sepCodeTail l = some s) : hasFlankedSep l = true := by
  apply spacedAlts_flanked (fun h2 => sepCodeAlts_sep h2)
  unfold sepCodeTail at h
  exact h

theorem hasFlankedSep_cons_of {c : Char} {r : Str}
    (h : hasFlankedSep r = true) : hasFlankedSep (c :: r) = true := by
  rw [hasFlankedSep]
  simp [h]

theorem hasFlankedSep_drop {l : Str} {n : Nat}
    (h : hasFlankedSep (l.drop n) = true) : hasFlankedSep l = true := by
  induction n generalizing l with
  | zero => exact h
  | succ m ih =>
    cases l with
    | nil => simpa using h
    | cons c r =>
      rw [List.drop_succ_cons] at h
      exact hasFlankedSep_cons_of (ih h)

theorem hasFlankedSep_dropWhile {l : Str} {p : Char → Bool}
    (h : hasFlankedSep (l.dropWhile p) = true) : hasFlankedSep l = true := by
  induction l with
  | nil => simpa using h
  | cons c r ih =>
    rw [List.dropWhile_cons] at h
    by_cases hc : p c = true
    · rw [if_pos hc] at h
      exact hasFlankedSep_cons_of (ih h)
    · rw [if_neg hc] at h
      exact h

theorem pat1At_flanked {l : Str} {res : Str × Str}
    (h : pat1At l = some res) : hasFlankedSep l = true := by
  unfold pat1At at h
  by_cases hk : (l.takeWhile isCodeChar).length = 0
  · rw [if_pos hk] at h
    exact absurd h (by simp)
  · rw [if_neg hk] at h
    cases hs : sepSizeTail (l.drop (l.takeWhile isCodeChar).length) with
    | none => rw [hs] at h; exact absurd h (by simp)
    | some size => exact hasFlankedSep_drop (sepSizeTail_flanked hs)

theorem pat1Search_none {l : Str} (h : hasFlankedSep l = false) :
    pat1Search l = none := by
  induction l with
  | nil => rfl
  | cons c r ih =>
    rw [hasFlankedSep] at h
    have hr : hasFlankedSep r = false := by
      cases hx : hasFlankedSep r
      · rfl
      · rw [hx] at h; simp at h
    rw [pat1Search]
    cases hp : pat1At (c :: r) with
    | some res =>
      have h2 := pat1At_flanked hp
      rw [hasFlankedSep] at h2
      rw [h] at h2
      exact Bool.noConfusion h2
    | none => exact ih hr

theorem pat2Lazy_none {acc : Str} {rest : Str}
    (h : hasFlankedSep rest = false) : pat2Lazy acc rest = none := by
  induction rest generalizing acc with
  | nil => rfl
  | cons c r ih =>
    rw [hasFlankedSep] at h
    have hr : hasFlankedSep r = false := by
      cases hx : hasFlankedSep r
      · rfl
      · rw [hx] at h; simp at h
    rw [pat2Lazy]
    cases hs : sepCodeTail (c :: r) with
    | some code =>
      have h2 := sepCodeTail_flanked hs
      rw [hasFlankedSep] at h2
      rw [h] at h2
      exact Bool.noConfusion h2
    | none =>
      by_cases hn : c = '\n'
      · rw [if_pos hn]
      · rw [if_neg hn]
        exact ih hr

theorem pat2Search_none {l : Str} (h : hasFlankedSep l = false) :
    pat2Search l = none := by
  induction l with
  | nil => rfl
  | cons c r ih =>
    rw [hasFlankedSep] at h
    have hr : hasFlankedSep r = false := by
      cases hx : hasFlankedSep r
      · rfl
      · rw [hx] at h; simp at h
    rw [pat2Search]
    have hp2 : pat2At (c :: r) = none := by
      rw [pat2At]
      by_cases hn : c = '\n'
      · rw [if_pos hn]
      · rw [if_neg hn]
        exact pat2Lazy_none hr
    rw [hp2]
    exact ih hr

theorem pat3At_flanked {l : Str} {res : Str × Str}
    (h : pat3At l = some res) : hasFlankedSep l = true := by
  unfold pat3At at h
  by_cases hcw : startsWithCI ("code".toList) l = true
  · rw [if_pos hcw] at h
    by_cases he : ((l.drop 4).takeWhile isPySpace).isEmpty = true
    · rw [if_pos he] at h
      exact absurd h (by simp)
    · rw [if_neg he] at h
      exact hasFlankedSep_drop (hasFlankedSep_dropWhile (pat1At_flanked h))
  · rw [if_neg hcw] at h
    exact absurd h (by simp)

theorem pat3Search_none {l : Str} (h : hasFlankedSep l = false) :
    pat3Search l = none := by
  induction l with
  | nil => rfl
  | cons c r ih =>
    rw [hasFlankedSep] at h
    have hr : hasFlankedSep r = false := by
      cases hx : hasFlankedSep r
      · rfl
      · rw [hx] at h; simp at h
    rw [pat3Search]
    cases hp : pat3At (c :: r) with
    | some res =>
      have h2 := pat3At_flanked hp
      rw [hasFlankedSep] at h2
      rw [h] at h2
      exact Bool.noConfusion h2
    | none => exact ih hr

/-- Index of the last token satisfying `p`, as the spec's right-to-left
scan would find it. -/
def lastIdxWhere (p : Str → Bool) : List Str → Option Nat
  | [] => none
  | t :: ts =>
    match lastIdxWhere p ts with
    | some i => some (i + 1)
    | none => if p t then some 0 else none

/-- The code/size extraction algorithm exactly as claim C3 states it
(written from the spec's words, to compare with the source's
`_extract_code_and_size`): tokenize by whitespace and scan
right-to-left, preferring the last token with both a digit and a
letter (everything after it by position is the size), falling back to
the last token with a digit, then to the last non-empty token; reject
(return `none`) when the chosen code token is digits-only while the
phrase contains letter-bearing tokens that were never considered. -/
def specExtractCodeSize (text : Str) : Option (Str × Str) :=
  let tokens := pySplit text
  match lastIdxWhere (fun t => t.any isAsciiDigit && t.any isAsciiAlpha) tokens with
  | some i => some (tokens.getD i [], joinSpace (tokens.drop (i + 1)))
  | none =>
    match lastIdxWhere (fun t => t.any isAsciiDigit) tokens with
    | some i =>
      if tokens.any (fun t => t.any isAsciiAlpha) then none
      else some (tokens.getD i [], joinSpace (tokens.drop (i + 1)))
    | none =>
      match tokens.getLast? with
      | some t => some (t, [])
      | none => none

/-- Claim C3 (corrected), counterexample: on the remainder
`18 ltr drum` (no standalone `in`), the claimed right-to-left
digits-only rejection would return `none`, but the source extractor
matches no price pattern and falls back to the first whitespace token,
returning the digits-only code `18` with size `ltr drum`. -/
theorem claim_C3_counterexample :
    extract_code_and_size ("18 ltr drum".toList) =
        some (("18".toList), ("ltr drum".toList)) ∧
      specExtractCodeSize ("18 ltr drum".toList) = none := by
  constructor
  · decide
  · decide

/-- Claim C3 (corrected), amended claim: the extractor does not scan
tokens right-to-left and has no digits-only rejection.  For every
remainder containing no occurrence of `in`, `for` or `at`
(case-insensitive) flanked by whitespace on both sides - so that none
of the three price regexes can match - it splits on whitespace and
returns the FIRST token (trailing punctuation stripped) as the code
candidate and the remaining tokens re-joined by single spaces
(stripped) as the size remainder, returning `none` only when the
remainder has no tokens. -/
theorem claim_C3_amended (text : Str) (h : hasFlankedSep text = false) :
    extract_code_and_size text = extractFallback text := by
  unfold extract_code_and_size
  rw [pat1Search_none h, pat2Search_none h, pat3Search_none h]
  rfl

/-- Witness for the amended claim C3: the remainder `A119 18 Ltr` has
no flanked separator, and the extractor indeed returns the first-token
fallback `(A119, 18 Ltr)`. -/
theorem claim_C3_witness :
    extract_code_and_size ("A119 18 Ltr".toList) =
      extractFallback ("A119 18 Ltr".toList) :=
  claim_C3_amended ("A119 18 Ltr".toList) (by decide)

/-- Character class `[\.!?]` before the anchors of `_PRICE_RE` and
`_ABOUT_RE`. -/
def isDotBangQm (c : Char) : Bool := c = '.' || c = '!' || c = '?'

/-- Does `r` match `[\.!?]*\s*$`?  The punctuation run is taken
maximally (a shorter run would leave a punctuation character where
`\s*` must carry to the end), then everything remaining must be
whitespace (`$` before a trailing newline is subsumed, since `\s`
matches the newline). -/
def tailsOK (r : Str) : Bool := (r.dropWhile isDotBangQm).all isPySpace

/-- Lazy group `(.+?)` followed by `[\.!?]*\s*$`: take as few
non-newline characters as possible (at least one) such that the tail
matches; returns the group. -/
def lazyDollar : Str → Option Str
  | [] => none
  | c :: r =>
    if c = '\n' then none
    else if tailsOK r then some [c]
    else
      match lazyDollar r with
      | some s => some (c :: s)
      | none => none

/-- Backtracking step for `\s+(.+?)[\.!?]*\s*$`: whitespace-run
lengths from `k` down to 1 (greedy `\s+` first; on failure one
whitespace character at a time is handed to the lazy group). -/
def lazyTailBt (l : Str) : Nat → Option Str
  | 0 => none
  | k + 1 =>
    match lazyDollar (l.drop (k + 1)) with
    | some s => some s
    | none => lazyTailBt l k

/-- Matcher for `\s+(.+?)[\.!?]*\s*$` at the front of `l`. -/
def spaceLazyTail (l : Str) : Option Str :=
  lazyTailBt l (l.takeWhile isPySpace).length

/-- Part of `_PRICE_RE` after `^\s*how much is\s+`: the code group,
`\s+`, the `(?:in|for)` alternation, and the lazy size group. -/
def priceReAfterLiteral (r2 : Str) : Option (Str × Str) :=
  if (r2.takeWhile isCodeChar).isEmpty then none
  else
    if ((r2.drop (r2.takeWhile isCodeChar).length).takeWhile isPySpace).isEmpty then none
    else
      match
        orTry
          (if startsWithCI ("in".toList)
              ((r2.drop (r2.takeWhile isCodeChar).length).dropWhile isPySpace) then
            spaceLazyTail
              (((r2.drop (r2.takeWhile isCodeChar).length).dropWhile isPySpace).drop 2)
          else none)
          (if startsWithCI ("for".toList)
              ((r2.drop (r2.takeWhile isCodeChar).length).dropWhile isPySpace) then
            spaceLazyTail
              (((r2.drop (r2.takeWhile isCodeChar).length).dropWhile isPySpace).drop 3)
          else none) with
      | some size => some (r2.takeWhile isCodeChar, size)
      | none => none

/-- Embedding of `_PRICE_RE.match`: the anchored pattern
`^\s*how much is\s+([A-Za-z0-9-]+)\s+(?:in|for)\s+(.+?)[\.!?]*\s*$`
with `re.IGNORECASE`; returns the `(code, size)` groups.  The leading
`\s*`, the inner whitespace runs and the code group are maximal runs:
each is followed by a literal letter or by a class the run's own
characters cannot satisfy, so backtracking into them cannot succeed. -/
def priceReMatch (l : Str) : Option (Str × Str) :=
  if startsWithCI ("how much is".toList) (l.dropWhile isPySpace) then
    if (((l.dropWhile isPySpace).drop 11).takeWhile isPySpace).isEmpty then none
    else
      priceReAfterLiteral (((l.dropWhile isPySpace).drop 11).dropWhile isPySpace)
  else none

/-- Embedding of `_ABOUT_RE.match`: the anchored pattern
`^\s*tell me about\s+(.+?)[\.!?]*\s*$` with `re.IGNORECASE`; returns
the target group. -/
def aboutReMatch (l : Str) : Option Str :=
  if startsWithCI ("tell me about".toList) (l.dropWhile isPySpace) then
    spaceLazyTail ((l.dropWhile isPySpace).drop 13)
  else none

/-- Python `haystack.find(needle)` as an option: the first index of an
occurrence (`none` standing for Python's -1). -/
def findSub (needle : Str) : Str → Option Nat
  | [] => if needle.isEmpty then some 0 else none
  | c :: t =>
    if needle.isPrefixOf (c :: t) then some 0
    else
      match findSub needle t with
      | some i => some (i + 1)
      | none => none

/-- Token-dropping loop of `_strip_leading_words`: pop leading tokens
whose lower-case form is in the filler set. -/
def dropFillerTokens (filler : List Str) : List Str → List Str
  | [] => []
  | t :: ts =>
    if filler.contains (lowerStr t) then dropFillerTokens filler ts else t :: ts

/-- Embedding of `src.chatbot._strip_leading_words`. -/
def strip_leading_words (text : Str) (filler_words : List Str) : Str :=
  joinSpace (dropFillerTokens (filler_words.map lowerStr) (pySplit text))

/-- Trigger loop of `_parse_about_query`: find each trigger in the
lowered message; a located trigger whose cleaned remainder is truthy
wins, otherwise the next trigger is tried. -/
def paqLoop (config : ChatbotConfig) (message : Str) : List Str → Option Str
  | [] => none
  | trigger :: rest =>
    match findSub trigger (lowerStr message) with
    | none => paqLoop config message rest
    | some i =>
      if (strip_leading_words
          (strip_trailing_punctuation (message.drop (i + trigger.length)))
          config.filler_words).isEmpty then
        paqLoop config message rest
      else
        some (strip_leading_words
          (strip_trailing_punctuation (message.drop (i + trigger.length)))
          config.filler_words)

/-- Embedding of `src.chatbot._parse_about_query`. -/
def parse_about_query (config : ChatbotConfig) (message : Str) : Option Str :=
  paqLoop config message config.about_triggers

/-- Trigger loop of `_parse_price_query`: for each located price
trigger, run the code/size extraction on the cleaned remainder; any
extraction result (a tuple, hence truthy) wins. -/
def ppqLoop (config : ChatbotConfig) (message : Str) : List Str → Option (Str × Str)
  | [] => none
  | trigger :: rest =>
    match findSub trigger (lowerStr message) with
    | none => ppqLoop config message rest
    | some i =>
      match extract_code_and_size
          (strip_leading_words
            (strip_trailing_punctuation (message.drop (i + trigger.length)))
            config.filler_words) with
      | some parsed => some parsed
      | none => ppqLoop config message rest

/-- Embedding of `src.chatbot._parse_price_query`: the trigger loop,
then the keyword fallback scanning the full message when it mentions
`price` or `cost` (accepted only with a truthy code). -/
def parse_price_query (config : ChatbotConfig) (message : Str) : Option (Str × Str) :=
  match ppqLoop config message config.price_triggers with
  | some parsed => some parsed
  | none =>
    if containsSub ("price".toList) (lowerStr message) ||
        containsSub ("cost".toList) (lowerStr message) then
      match extract_code_and_size message with
      | some parsed => if parsed.1.isEmpty then none else some parsed
      | none => none
    else none

/-- Embedding of `src.chatbot._format_suggestions`. -/
def format_suggestions : List Str → Str
  | [] => []
  | [a] => a
  | [a, b] => a ++ (" or ".toList) ++ b
  | a :: b :: c :: rest =>
    List.intercalate (", ".toList) ((a :: b :: c :: rest).dropLast) ++
      (", or ".toList) ++ ((a :: b :: c :: rest).getLast (by simp))

/-- Group the reversed decimal digits of an integer part in threes,
for the thousands separators of Python's `{:,.2f}` format. -/
def group3 : Str → List Str
  | [] => []
  | [a] => [[a]]
  | [a, b] => [[a, b]]
  | [a, b, c] => [[a, b, c]]
  | a :: b :: c :: d :: r => [a, b, c] :: group3 (d :: r)

/-- Render a money amount given in hundredths exactly as the source's
`f"{price_value:,.2f}"` renders the corresponding two-decimal float:
comma thousands separators and two decimals. -/
def formatMoney (fils : Nat) : Str :=
  List.intercalate (",".toList)
      (((group3 (Nat.toDigits 10 (fils / 100)).reverse).reverse).map List.reverse) ++
    ('.' :: (if fils % 100 < 10 then '0' :: Nat.toDigits 10 (fils % 100)
      else Nat.toDigits 10 (fils % 100)))

/-- A price tier of the catalog behind the chatbot's price lookups:
display size label and price in hundredths. -/
structure PriceTier where
  size : Str
  price : Nat

/-- A price record of that catalog: product code (unique business
key), product name, price tiers. -/
structure PriceRec where
  product_code : Str
  product_name : Str
  tiers : List PriceTier

/-- The catalog behind the chatbot's price lookups, with the price
document's currency. -/
structure PriceCatalog where
  recs : List PriceRec
  currency : Str

/-- Modelled from the spec: `lookup_price` is imported by
`src.chatbot` and `src.tools.paint` from `src.data.prices` but is
missing from the sources (only callers and tests exist).  Per the
spec's data model (codes indexed in uppercased trimmed form, size
labels via the canonical size key) and the call sites (a
`(product, price_entry, currency)` triple with falsy components on an
ordinary no-match), it resolves the code to its record and the size to
its tier. -/
def lookup_price (catalog : PriceCatalog) (code size : Str) :
    Option PriceRec × Option PriceTier × Str :=
  match catalog.recs.find? (fun r =>
      upperStr (pyStrip r.product_code) == upperStr (pyStrip code)) with
  | none => (none, none, catalog.currency)
  | some r =>
    (some r,
      r.tiers.find? (fun t => normalize_size_key t.size == normalize_size_key size),
      catalog.currency)

/-- Modelled from the spec: `list_available_sizes` (imported from
`src.data.prices`, missing from the sources) returns the display size
labels of the record with the given code, `[]` when the code is
unknown - the analogue of the in-source `list_sizes`. -/
def list_available_sizes (catalog : PriceCatalog) (code : Str) : List Str :=
  match catalog.recs.find? (fun r =>
      upperStr (pyStrip r.product_code) == upperStr (pyStrip code)) with
  | none => []
  | some r => r.tiers.map (fun t => t.size)

/-- Modelled from the spec: `list_product_codes` (imported from
`src.data.prices`, missing from the sources) lists the catalog's
product codes. -/
def list_product_codes (catalog : PriceCatalog) : List Str :=
  catalog.recs.map (fun r => r.product_code)

/-- Python truthiness of a product field value. -/
def pvTruthy : PVal → Bool
  | PVal.s v => !v.isEmpty
  | PVal.l vs => !vs.isEmpty
  | PVal.d kvs => !kvs.isEmpty

/-- Python `product.get(k1) or product.get(k2) or ...` chains in
`summarize_product`: the first truthy field value.  Falsy values and
missing keys fall through alike; the callers only test truthiness and
stringify truthy values, so collapsing a trailing falsy result to
`none` is behaviour-preserving. -/
def chainGet (fields : List (Str × PVal)) : List Str → Option PVal
  | [] => none
  | k :: ks =>
    match List.lookup k fields with
    | some v => if pvTruthy v then some v else chainGet fields ks
    | none => chainGet fields ks

/-- Python `str.capitalize()`: first character upper-cased, the rest
lower-cased. -/
def pyCapitalize : Str → Str
  | [] => []
  | c :: r => upperChar c :: lowerStr r

/-- The `nice_key` transform of `_stringify` for mapping keys:
underscores and hyphens to spaces, strip, capitalize. -/
def niceKey (k : Str) : Str :=
  pyCapitalize (pyStrip (k.map (fun c => if c = '_' ∨ c = '-' then ' ' else c)))

mutual

/-- Embedding of `src.data.products._stringify` on one value. -/
def stringifyVal : PVal → Str
  | PVal.s v => joinSpace (pySplit v)
  | PVal.l vs => List.intercalate ("; ".toList) (stringifyListVals vs)
  | PVal.d kvs => List.intercalate ("; ".toList) (stringifyDictVals kvs)

/-- `_stringify` on a list: truthy items are stringified and empty
results dropped. -/
def stringifyListVals : List PVal → List Str
  | [] => []
  | v :: rest =>
    if pvTruthy v then
      if (stringifyVal v).isEmpty then stringifyListVals rest
      else stringifyVal v :: stringifyListVals rest
    else stringifyListVals rest

/-- `_stringify` on a mapping: entries with a non-empty stringified
value become `Nice key: value` parts. -/
def stringifyDictVals : List (Str × PVal) → List Str
  | [] => []
  | (k, v) :: rest =>
    if (stringifyVal v).isEmpty then stringifyDictVals rest
    else (niceKey k ++ (": ".toList) ++ stringifyVal v) :: stringifyDictVals rest

end

/-- Embedding of `src.data.products.summarize_product`. -/
def summarize_product (product : Product) : Str :=
  let description := chainGet product.fields
    [("description".toList), ("product_description".toList)]
  let uses := chainGet product.fields
    [("uses".toList), ("usage".toList), ("usage_data".toList)]
  let advantages := chainGet product.fields
    [("advantages".toList), ("advantages_and_intended_use".toList)]
  let parts :=
    (match description with
      | some v => [stringifyVal v]
      | none => []) ++
    (match uses with
      | some v => [("Uses: ".toList) ++ stringifyVal v]
      | none => []) ++
    (match advantages with
      | some v => [("Advantages: ".toList) ++ stringifyVal v]
      | none => [])
  if parts.isEmpty then ("No summary is available for this product.".toList)
  else List.intercalate ("\n".toList) parts

/-- Embedding of `src.chatbot._suggest_product_names`; `nameScorer`
stands for `fuzz.WRatio`. -/
def suggest_product_names (products : List Product) (nameScorer : Str → Str → Int)
    (config : ChatbotConfig) (query : Str) : List Str :=
  if query.isEmpty then []
  else
    (process_extract query (list_product_names products) (some normalize_simple)
      nameScorer config.product_similarity_threshold config.suggestion_limit).map
      (fun m => m.1)

/-- Embedding of `src.chatbot._suggest_product_codes`; `codeScorer`
stands for `fuzz.partial_ratio`. -/
def suggest_product_codes (catalog : PriceCatalog) (codeScorer : Str → Str → Int)
    (config : ChatbotConfig) (query : Str) : List Str :=
  if query.isEmpty then []
  else
    if (normalize_code_query query).isEmpty then []
    else
      (process_extract (normalize_code_query query) (list_product_codes catalog)
        (some normalize_code_query) codeScorer config.code_similarity_threshold
        config.suggestion_limit).map (fun m => m.1)

/-- Embedding of `src.chatbot._handle_about` (flattened products and
the name scorer passed explicitly). -/
def handle_about (products : List Product) (nameScorer : Str → Str → Int)
    (config : ChatbotConfig) (product_name : Str) : Str :=
  match find_product_by_name products product_name with
  | some product =>
    pyStrip product.name ++ ('\n' :: summarize_product product)
  | none =>
    match hs : suggest_product_names products nameScorer config product_name with
    | [] =>
      ("I couldn\x27t find a product named \"".toList) ++ pyStrip product_name ++
        ("\".".toList)
    | best_name :: restSugg =>
      match
        (match find_product_by_name products best_name with
          | some p => some p
          | none =>
            products.find? (fun cand =>
              normalize_simple cand.name == normalize_simple best_name)) with
      | some bp =>
        ("I couldn\x27t find a product named \"".toList) ++ pyStrip product_name ++
          ("\". Here\x27s the closest match I found:\n".toList) ++ pyStrip bp.name ++
          ('\n' :: summarize_product bp)
      | none =>
        ("I couldn\x27t find a product named \"".toList) ++ pyStrip product_name ++
          ("\". Did you mean: ".toList) ++
          format_suggestions (best_name :: restSugg) ++ ("?".toList)

/-- The `price_entry is None` report of `_handle_price`: unknown size,
with the closest size (when one was alias-matched) and the available
sizes. -/
def handle_price_nosize (catalog : PriceCatalog) (product : PriceRec)
    (size : Str) (matched_size : Option Str) : Str :=
  (match matched_size with
    | some m =>
      ("I couldn\x27t find the size \"".toList) ++ pyStrip size ++
        ("\" for ".toList) ++ product.product_name ++ (" (code ".toList) ++
        product.product_code ++ ("). The closest size is \"".toList) ++ m ++
        ("\".".toList)
    | none =>
      ("I couldn\x27t find the size \"".toList) ++ pyStrip size ++
        ("\" for ".toList) ++ product.product_name ++ (" (code ".toList) ++
        product.product_code ++ (").".toList)) ++
  (match list_available_sizes catalog product.product_code with
    | [] => []
    | sz :: restSz =>
      (" Available sizes are: ".toList) ++
        List.intercalate (", ".toList) (sz :: restSz) ++ (".".toList))

/-- Continuation of `_handle_price` once the size phrase is known to
be non-empty: the pair is `(matched_size, price_entry)` after the
alias-matching step. -/
def handle_price_sized (catalog : PriceCatalog) (sizeScorer : Str → Str → Int)
    (config : ChatbotConfig) (product : PriceRec) (size : Str)
    (state : Option Str × Option PriceTier) (currency : Str) : Str :=
  match state with
  | (matched_size, none) =>
    handle_price_nosize catalog product size matched_size
  | (_, some entry) =>
    product.product_name ++ (" (code ".toList) ++ product.product_code ++
      (") costs ".toList) ++
      (if (pyStrip currency).isEmpty then formatMoney entry.price
        else formatMoney entry.price ++ (' ' :: pyStrip currency)) ++
      (" for ".toList) ++
      (if entry.size.isEmpty then pyStrip size else entry.size) ++
      (if !(pyStrip size).isEmpty &&
          normalize_size_phrase config size ≠
            normalize_size_phrase config
              (if entry.size.isEmpty then pyStrip size else entry.size) then
        (" (closest size to \"".toList) ++ pyStrip size ++ ("\")".toList)
      else []) ++
      (".".toList)

/-- Embedding of `src.chatbot._handle_price` (the price catalog and
the code and size scorers passed explicitly).  Re-running
`lookup_price` on the alias-matched size rebinds `product` and
`currency` as in the source; both are unchanged, since the code is the
same.  The source's `price isn\x27t listed` branch guards a tier without
a `price` key; the spec's PriceTier always carries a price, so that
branch cannot trigger in the model. -/
def handle_price (catalog : PriceCatalog) (codeScorer sizeScorer : Str → Str → Int)
    (config : ChatbotConfig) (product_code size : Str) : Str :=
  match lookup_price catalog product_code size with
  | (none, _, _) =>
    match suggest_product_codes catalog codeScorer config product_code with
    | [] =>
      ("I couldn\x27t find a product with the code \"".toList) ++
        pyStrip product_code ++ ("\".".toList)
    | s1 :: restSugg =>
      ("I couldn\x27t find a product with the code \"".toList) ++
        pyStrip product_code ++ ("\". Closest match: ".toList) ++
        format_suggestions (s1 :: restSugg) ++ (".".toList)
  | (some product, price_entry0, currency) =>
    if (pyStrip size).isEmpty then
      match hsz : list_available_sizes catalog product.product_code with
      | [] =>
        ("I couldn\x27t find size details for ".toList) ++ product.product_name ++
          (" (code ".toList) ++ product.product_code ++ (").".toList)
      | sz :: restSz =>
        product.product_name ++ (" (code ".toList) ++ product.product_code ++
          (") is available in: ".toList) ++
          List.intercalate (", ".toList) (sz :: restSz) ++
          (". Please specify one of these sizes to get a price.".toList)
    else
      handle_price_sized catalog sizeScorer config product size
        (match price_entry0 with
          | some e => (none, some e)
          | none =>
            match match_size_alias sizeScorer config size
                (list_available_sizes catalog product.product_code) with
            | some m =>
              (some m, (lookup_price catalog product.product_code m).2.1)
            | none => (none, none))
        currency



/-- Embedding of `src.chatbot._handle_unknown`. -/
def handle_unknown (products : List Product) (catalog : PriceCatalog)
    (nameScorer codeScorer : Str → Str → Int) (config : ChatbotConfig)
    (message : Str) : Str :=
  match suggest_product_names products nameScorer config message with
  | suggestion :: _ =>
    ("I\x27m not sure how to help with that directly, but it sounds like you\x27re interested in ".toList) ++
      suggestion ++ (". Try asking \x27Tell me about ".toList) ++ suggestion ++
      ("\x27.".toList)
  | [] =>
    match suggest_product_codes catalog codeScorer config message with
    | suggestion :: _ =>
      ("I\x27m not sure how to help with that directly, but the closest product code I found is ".toList) ++
        suggestion ++ (". Try asking \x27How much is ".toList) ++ suggestion ++
        (" in <size>?\x27.".toList)
    | [] =>
      ("I\x27m not sure how to help with that. Try asking \x27Tell me about <product name>\x27 or \x27How much is <product code> in <size>?\x27.".toList)

/-- Embedding of `src.chatbot.respond_to`, with the module-level state
passed explicitly: the flattened product list, the price catalog
behind the (spec-modelled) price lookups, and the three external
rapidfuzz scorers (`fuzz.WRatio`, `fuzz.partial_ratio`,
`fuzz.token_set_ratio`). -/
def respond_to (products : List Product) (catalog : PriceCatalog)
    (nameScorer codeScorer sizeScorer : Str → Str → Int)
    (config : ChatbotConfig) (message0 : Str) : Str :=
  if (pyStrip message0).isEmpty then
    ("Please enter a question about a product or its price.".toList)
  else
    match priceReMatch (pyStrip message0) with
    | some (product_code, size) =>
      handle_price catalog codeScorer sizeScorer config product_code size
    | none =>
      match parse_price_query config (pyStrip message0) with
      | some (product_code, size) =>
        handle_price catalog codeScorer sizeScorer config product_code size
      | none =>
        match aboutReMatch (pyStrip message0) with
        | some product_name =>
          handle_about products nameScorer config product_name
        | none =>
          match parse_about_query config (pyStrip message0) with
          | some parsed => handle_about products nameScorer config parsed
          | none =>
            handle_unknown products catalog nameScorer codeScorer config
              (pyStrip message0)

/-- The catalog fixture of claim C1: product code `A119`
(National Acrylic Primer (W.B.)) with a price tier of 80.00 AED for
the size label `18 Ltr (Drum)`. -/
def fixtureA119 : PriceCatalog :=
  ⟨[⟨("A119".toList), ("National Acrylic Primer (W.B.)".toList),
      [⟨("18 Ltr (Drum)".toList), 8000⟩]⟩],
    ("AED".toList)⟩

/-- Claim C1 (confirmed): with a catalog fixture containing product
code `A119` priced 80.00 AED for `18 Ltr (Drum)`, resolving the
message `How much is A119 in 18 Ltr (Drum)?` under the default
configuration (size threshold 70) produces the answer naming product
code `A119`, the size label `18 Ltr (Drum)`, the price `80.00` and the
currency `AED`.  The product list and all three fuzzy scorers are
universally quantified: the resolution is exact and never consults
them. -/
theorem claim_C1_price_resolution (products : List Product)
    (nameScorer codeScorer sizeScorer : Str → Str → Int) :
    respond_to products fixtureA119 nameScorer codeScorer sizeScorer
        DEFAULT_CONFIG ("How much is A119 in 18 Ltr (Drum)?".toList) =
      ("National Acrylic Primer (W.B.) (code A119) costs 80.00 AED for 18 Ltr (Drum).".toList) := by
  rfl

/-- Claim C8 (confirmed): every whitespace-only (in particular empty)
message short-circuits to the fixed prompt asking for a question.  The
product list, the price catalog, the scorers and the configuration are
universally quantified: no catalog index is consulted. -/
theorem claim_C8_empty_message (products : List Product)
    (catalog : PriceCatalog) (nameScorer codeScorer sizeScorer : Str → Str → Int)
    (config : ChatbotConfig) (msg : Str)
    (h : ∀ c ∈ msg, isPySpace c = true) :
    respond_to products catalog nameScorer codeScorer sizeScorer config msg =
      ("Please enter a question about a product or its price.".toList) := by
  have h0 : pyStrip msg = [] := by
    unfold pyStrip stripBy lstripBy rstripBy
    rw [List.dropWhile_eq_nil_iff.mpr (fun x hx => h x hx)]
    rfl
  unfold respond_to
  rw [h0]
  rfl

/-- Witness for claim C8: the three-space message yields the fixed
prompt on a concrete empty catalog. -/
theorem claim_C8_witness :
    respond_to [] ⟨[], ("AED".toList)⟩ sampleSizeScorer sampleSizeScorer
        sampleSizeScorer DEFAULT_CONFIG ("   ".toList) =
      ("Please enter a question about a product or its price.".toList) :=
  claim_C8_empty_message [] ⟨[], ("AED".toList)⟩ sampleSizeScorer
    sampleSizeScorer sampleSizeScorer DEFAULT_CONFIG ("   ".toList) (by decide)
